import Mathlib

set_option maxRecDepth 8192

/-!
# Verification of the `agent_answer_bot` core (schema.py, calculator.py, agent.py)

Shallow embedding of the repository's action-protocol normalizer
(`schema.py`), restricted expression evaluator (`calculator.py`) and agent
turn/retry loop (`agent.py`), with theorems settling the frozen claims.

Modelling conventions:
* Python strings are Lean `String`s / `List Char`; all character-level
  algorithms (`_fix_json_newlines`, brace extraction, `strip`, `upper`)
  are transcribed from the source character by character.
* `json.loads` is embedded as a recursive-descent JSON parser over the
  fragment the action protocol uses: objects, arrays, strings (with the
  standard escapes, raw control characters rejected as CPython's strict
  mode does), integer numerals, `true`/`false`/`null`.  Fractional JSON
  numerals do not occur in the action protocol and are not modelled.
* Python numbers in the calculator are modelled exactly as rationals,
  with an `isFloat` tag tracking the int/float distinction where it
  changes behaviour (e.g. `list * int`).  The claims only evaluate
  expressions whose values are exact.
-/

namespace AgentBot

/-- Python `str.strip` whitespace set (ASCII part; the action texts are ASCII). -/
def pyWs (c : Char) : Bool :=
  c = ' ' || c = '\t' || c = '\n' || c = '\x0d' || c = '\x0b' || c = '\x0c'

/-- JSON inter-token whitespace (RFC 8259, as accepted by `json.loads`). -/
def jsonWs (c : Char) : Bool :=
  c = ' ' || c = '\t' || c = '\n' || c = '\x0d'

/-- Python `str.strip()` on a character list: drop leading and trailing whitespace. -/
def pyStripL (l : List Char) : List Char := l.dropWhile pyWs

def pyStrip (l : List Char) : List Char :=
  ((pyStripL l).reverse.dropWhile pyWs).reverse

/-- ASCII `str.upper()` (the SQL prefix check only involves ASCII letters). -/
def asciiUpper (l : List Char) : List Char :=
  l.map fun c => if 'a' ≤ c && c ≤ 'z' then Char.ofNat (c.toNat - 32) else c

def asciiLower (l : List Char) : List Char :=
  l.map fun c => if 'A' ≤ c && c ≤ 'Z' then Char.ofNat (c.toNat + 32) else c

/-- `str.startswith` on character lists. -/
def listStartsWith : List Char → List Char → Bool
  | _, [] => true
  | [], _ :: _ => false
  | c :: cs, p :: ps => c = p && listStartsWith cs ps

mutual
/-- JSON values, as produced by the embedded `json.loads`. -/
inductive Json where
  | str (s : String)
  | int (n : Int)
  | bool (b : Bool)
  | null
  | arr (xs : JsonArr)
  | obj (kvs : JsonObj)
  deriving DecidableEq

/-- A JSON array body. -/
inductive JsonArr where
  | nil
  | cons (hd : Json) (tl : JsonArr)
  deriving DecidableEq

/-- A JSON object body: ordered key/value pairs (a Python `dict`'s insertion order). -/
inductive JsonObj where
  | nil
  | cons (k : String) (v : Json) (tl : JsonObj)
  deriving DecidableEq
end

/-- Python `dict.get`: first binding for a key (the parser keeps keys unique,
mirroring `dict`'s key deduplication). -/
def JsonObj.get : JsonObj → String → Option Json
  | .nil, _ => none
  | .cons k v tl, key => if k = key then some v else tl.get key

/-- `d[k] = v` as CPython's dict does it while parsing: update the value in
place if the key exists (keeping its position), otherwise append. -/
def JsonObj.set : JsonObj → String → Json → JsonObj
  | .nil, key, v => .cons key v .nil
  | .cons k w tl, key, v =>
      if k = key then .cons k v tl else .cons k w (tl.set key v)

def JsonObj.isNil : JsonObj → Bool
  | .nil => true
  | .cons _ _ _ => false

/-! ## Embedded `json.loads` (recursive descent over the action-protocol fragment) -/

def hexDigit (c : Char) : Option Nat :=
  if '0' ≤ c && c ≤ '9' then some (c.toNat - 48)
  else if 'a' ≤ c && c ≤ 'f' then some (c.toNat - 87)
  else if 'A' ≤ c && c ≤ 'F' then some (c.toNat - 55)
  else none

/-- Single-character JSON escapes (`\"`, `\\`, `\/`, `\b`, `\f`, `\n`, `\r`, `\t`). -/
def escChar (c : Char) : Option Char :=
  if c = '"' then some '"'
  else if c = '\\' then some '\\'
  else if c = '/' then some '/'
  else if c = 'b' then some '\x08'
  else if c = 'f' then some '\x0c'
  else if c = 'n' then some '\n'
  else if c = 'r' then some '\x0d'
  else if c = 't' then some '\t'
  else none

/-- Parse a JSON string body after the opening quote.  Raw control characters
are rejected, as CPython's strict-mode decoder does (this is exactly why
`_fix_json_newlines` exists). -/
def pStr : List Char → Option (List Char × List Char)
  | [] => none
  | c :: rest =>
    if c = '"' then some ([], rest)
    else if c = '\\' then
      match rest with
      | [] => none
      | e :: rest' =>
        if e = 'u' then
          match rest' with
          | a :: b :: c2 :: d :: rest'' =>
            match hexDigit a, hexDigit b, hexDigit c2, hexDigit d with
            | some x, some y, some z, some w =>
              match pStr rest'' with
              | some (s, r) => some (Char.ofNat (((x * 16 + y) * 16 + z) * 16 + w) :: s, r)
              | none => none
            | _, _, _, _ => none
          | _ => none
        else
          match escChar e, pStr rest' with
          | some ch, some (s, r) => some (ch :: s, r)
          | _, _ => none
    else if c.toNat < 0x20 then none
    else
      match pStr rest with
      | some (s, r) => some (c :: s, r)
      | none => none

def digVal (c : Char) : Nat := c.toNat - 48

def foldDigits (acc : Nat) : List Char → Nat
  | [] => acc
  | c :: rest => foldDigits (acc * 10 + digVal c) rest

/-- Parse a JSON natural-number literal (no leading zeros, per the JSON grammar). -/
def pNat : List Char → Option (Nat × List Char)
  | [] => none
  | c :: rest =>
    if c = '0' then
      some (0, rest)
    else if c.isDigit then
      let ds := rest.takeWhile Char.isDigit
      some (foldDigits (digVal c) ds, rest.dropWhile Char.isDigit)
    else none

/-- Trailing-character check after a numeral: a following `.`, `e` or `E`
(a fractional or exponent numeral) is outside the modelled fragment and
fails, as is a further digit; the action protocol never uses fractional
literals. -/
def numTailCheck (m : Int) (r : List Char) : Option (Int × List Char) :=
  match r with
  | d :: _ => if d = '.' || d = 'e' || d = 'E' || d.isDigit then none else some (m, r)
  | [] => some (m, [])

/-- Parse a JSON integer numeral. -/
def pInt : List Char → Option (Int × List Char)
  | [] => none
  | c :: rest =>
    if c = '-' then
      match pNat rest with
      | some (n, r) => numTailCheck (-(n : Int)) r
      | none => none
    else
      match pNat (c :: rest) with
      | some (n, r) => numTailCheck (n : Int) r
      | none => none

mutual
/-- Parse one JSON value (`fuel` bounds the recursion; `jsonLoads` supplies
enough for any input). -/
def pVal : Nat → List Char → Option (Json × List Char)
  | 0, _ => none
  | fuel + 1, cs =>
    match cs.dropWhile jsonWs with
    | [] => none
    | c :: rest =>
      if c = '{' then
        match rest.dropWhile jsonWs with
        | '}' :: r => some (.obj .nil, r)
        | _ => pMembers fuel rest .nil
      else if c = '[' then
        match rest.dropWhile jsonWs with
        | ']' :: r => some (.arr .nil, r)
        | _ => pElems fuel rest
      else if c = '"' then
        match pStr rest with
        | some (s, r) => some (.str ⟨s⟩, r)
        | none => none
      else if c = 't' then
        match rest with
        | 'r' :: 'u' :: 'e' :: r => some (.bool true, r)
        | _ => none
      else if c = 'f' then
        match rest with
        | 'a' :: 'l' :: 's' :: 'e' :: r => some (.bool false, r)
        | _ => none
      else if c = 'n' then
        match rest with
        | 'u' :: 'l' :: 'l' :: r => some (.null, r)
        | _ => none
      else
        match pInt (c :: rest) with
        | some (n, r) => some (.int n, r)
        | none => none

/-- Parse the members of an object after `{` (CPython overwrites duplicate
keys in place, which `JsonObj.set` mirrors). -/
def pMembers : Nat → List Char → JsonObj → Option (Json × List Char)
  | 0, _, _ => none
  | fuel + 1, cs, acc =>
    match cs.dropWhile jsonWs with
    | '"' :: rest =>
      match pStr rest with
      | some (k, r1) =>
        match r1.dropWhile jsonWs with
        | ':' :: r2 =>
          match pVal fuel r2 with
          | some (v, r3) =>
            match r3.dropWhile jsonWs with
            | ',' :: r4 => pMembers fuel r4 (acc.set ⟨k⟩ v)
            | '}' :: r4 => some (.obj (acc.set ⟨k⟩ v), r4)
            | _ => none
          | none => none
        | _ => none
      | none => none
    | _ => none

/-- Parse the elements of an array after `[`. -/
def pElems : Nat → List Char → Option (Json × List Char)
  | 0, _ => none
  | fuel + 1, cs =>
    match pVal fuel cs with
    | some (v, r1) =>
      match r1.dropWhile jsonWs with
      | ',' :: r2 =>
        match pElems fuel r2 with
        | some (.arr xs, r3) => some (.arr (.cons v xs), r3)
        | _ => none
      | ']' :: r2 => some (.arr (.cons v .nil), r2)
      | _ => none
    | none => none
end

/-- Embedded `json.loads`: one value, then only whitespace may remain
(otherwise CPython raises "Extra data"). -/
def jsonLoads (s : List Char) : Option Json :=
  match pVal (s.length + 1) s with
  | some (v, rest) => if rest.dropWhile jsonWs = [] then some v else none
  | none => none

/-! ## JSON rendering (used to state theorems about model-produced texts) -/

/-- Escape one character of a JSON string value the way a well-formed emitter
does: quote, backslash and the control characters `\n`, `\r`, `\t`. -/
def escSeq (c : Char) : List Char :=
  if c = '"' then ['\\', '"']
  else if c = '\\' then ['\\', '\\']
  else if c = '\n' then ['\\', 'n']
  else if c = '\x0d' then ['\\', 'r']
  else if c = '\t' then ['\\', 't']
  else [c]

/-- Escape only the string delimiters, leaving control characters raw: this is
the shape of the malformed texts `_fix_json_newlines` exists to repair. -/
def escRaw (c : Char) : List Char :=
  if c = '"' then ['\\', '"']
  else if c = '\\' then ['\\', '\\']
  else [c]

def natToDigits (n : Nat) : List Char :=
  if h : n < 10 then [Char.ofNat (48 + n)]
  else natToDigits (n / 10) ++ [Char.ofNat (48 + n % 10)]
  termination_by n
  decreasing_by exact Nat.div_lt_self (by omega) (by omega)

def renderInt (i : Int) : List Char :=
  if i < 0 then '-' :: natToDigits i.natAbs else natToDigits i.natAbs

mutual
/-- Compact rendering of a JSON value with properly escaped strings. -/
def render : Json → List Char
  | .str s => '"' :: ((s.data.map escSeq).flatten ++ ['"'])
  | .int n => renderInt n
  | .bool true => ['t', 'r', 'u', 'e']
  | .bool false => ['f', 'a', 'l', 's', 'e']
  | .null => ['n', 'u', 'l', 'l']
  | .arr xs => '[' :: (renderArr xs ++ [']'])
  | .obj kvs => '{' :: (renderObj kvs ++ ['}'])

def renderArr : JsonArr → List Char
  | .nil => []
  | .cons v .nil => render v
  | .cons v (.cons w tl) => render v ++ ',' :: renderArr (.cons w tl)

def renderObj : JsonObj → List Char
  | .nil => []
  | .cons k v .nil => '"' :: ((k.data.map escSeq).flatten ++ '"' :: ':' :: render v)
  | .cons k v (.cons k' w tl) =>
      '"' :: ((k.data.map escSeq).flatten ++ '"' :: ':' :: render v) ++
        ',' :: renderObj (.cons k' w tl)
end

mutual
/-- Rendering with raw control characters inside string values (the malformed
model output shape that triggers the repair pass). -/
def renderRaw : Json → List Char
  | .str s => '"' :: ((s.data.map escRaw).flatten ++ ['"'])
  | .int n => renderInt n
  | .bool true => ['t', 'r', 'u', 'e']
  | .bool false => ['f', 'a', 'l', 's', 'e']
  | .null => ['n', 'u', 'l', 'l']
  | .arr xs => '[' :: (renderRawArr xs ++ [']'])
  | .obj kvs => '{' :: (renderRawObj kvs ++ ['}'])

def renderRawArr : JsonArr → List Char
  | .nil => []
  | .cons v .nil => renderRaw v
  | .cons v (.cons w tl) => renderRaw v ++ ',' :: renderRawArr (.cons w tl)

def renderRawObj : JsonObj → List Char
  | .nil => []
  | .cons k v .nil => '"' :: ((k.data.map escRaw).flatten ++ '"' :: ':' :: renderRaw v)
  | .cons k v (.cons k' w tl) =>
      '"' :: ((k.data.map escRaw).flatten ++ '"' :: ':' :: renderRaw v) ++
        ',' :: renderRawObj (.cons k' w tl)
end

def renderString (v : Json) : String := ⟨render v⟩

/-! ## Well-formedness predicates and fuel measures for the rendered texts -/

def JsonObj.hasKey : JsonObj → String → Bool
  | .nil, _ => false
  | .cons k _ tl, key => k = key || tl.hasKey key

def JsonObj.append : JsonObj → JsonObj → JsonObj
  | .nil, b => b
  | .cons k v tl, b => .cons k v (tl.append b)

/-- A character a well-formed emitter can carry inside a JSON string using
only the delimiter and `\n`/`\r`/`\t` escapes: printable, or one of those
three control characters. -/
def goodChar (c : Char) : Bool :=
  (0x20 ≤ c.toNat) || c = '\n' || c = '\x0d' || c = '\t'

def goodChars (l : List Char) : Bool := l.all goodChar

mutual
/-- Well-formed JSON value: strings over `goodChar`, object keys unique. -/
def goodJson : Json → Bool
  | .str s => goodChars s.data
  | .int _ => true
  | .bool _ => true
  | .null => true
  | .arr xs => goodArr xs
  | .obj kvs => goodObj kvs

def goodArr : JsonArr → Bool
  | .nil => true
  | .cons v tl => goodJson v && goodArr tl

def goodObj : JsonObj → Bool
  | .nil => true
  | .cons k v tl => goodChars k.data && !(tl.hasKey k) && goodJson v && goodObj tl
end

def ctrlChar (c : Char) : Bool := c = '\n' || c = '\x0d' || c = '\t'

mutual
/-- Does some string value (or key) contain a literal newline, carriage
return or tab? -/
def hasCtrl : Json → Bool
  | .str s => s.data.any ctrlChar
  | .int _ => false
  | .bool _ => false
  | .null => false
  | .arr xs => hasCtrlArr xs
  | .obj kvs => hasCtrlObj kvs

def hasCtrlArr : JsonArr → Bool
  | .nil => false
  | .cons v tl => hasCtrl v || hasCtrlArr tl

def hasCtrlObj : JsonObj → Bool
  | .nil => false
  | .cons k v tl => k.data.any ctrlChar || hasCtrl v || hasCtrlObj tl
end

mutual
/-- Fuel needed by `pVal` to parse the rendering of a value. -/
def needV : Json → Nat
  | .str _ => 1
  | .int _ => 1
  | .bool _ => 1
  | .null => 1
  | .arr xs => 1 + needE xs
  | .obj kvs => 1 + needM kvs

def needE : JsonArr → Nat
  | .nil => 1
  | .cons v tl => 1 + max (needV v) (needE tl)

def needM : JsonObj → Nat
  | .nil => 1
  | .cons _ v tl => 1 + max (needV v) (needM tl)
end

/-- The rest of the input may not start with a character that would extend a
numeric literal (needed after an integer rendering). -/
def numDelim (rest : List Char) : Bool :=
  match rest with
  | [] => true
  | d :: _ => !(d.isDigit || d = '.' || d = 'e' || d = 'E')

def numSafe (v : Json) (rest : List Char) : Bool :=
  match v with
  | .int _ => numDelim rest
  | _ => true

/-- No key of `kvs` is already bound in `acc`. -/
def keysDisjoint (acc kvs : JsonObj) : Prop :=
  ∀ k, kvs.hasKey k = true → acc.hasKey k = false

/-! ## `_fix_json_newlines` (schema.py lines 10–35) -/

/-- Character-by-character transcription of `_fix_json_newlines`: inside a
string (quote parity), a `\\` keeps the following character as-is, and raw
`\n` / `\r` / `\t` become their two-character escapes. -/
def fixGo : Bool → List Char → List Char
  | _, [] => []
  | inStr, c :: rest =>
    if c = '\\' && inStr && !rest.isEmpty then
      match rest with
      | d :: rest' => c :: d :: fixGo inStr rest'
      | [] => [c]
    else if c = '"' then c :: fixGo (!inStr) rest
    else if c = '\n' && inStr then '\\' :: 'n' :: fixGo inStr rest
    else if c = '\x0d' && inStr then '\\' :: 'r' :: fixGo inStr rest
    else if c = '\t' && inStr then '\\' :: 't' :: fixGo inStr rest
    else c :: fixGo inStr rest

def fixJsonNewlines (s : String) : String := ⟨fixGo false s.data⟩

/-! ## Brace-balanced extraction (schema.py lines 110–144) -/

/-- The scan loop of `validate_action`'s extraction stage: tracks escape,
quote and depth state and returns `i + 1` for the `}` that brings the depth
back to zero. -/
def scanGo (depth : Int) (inStr esc : Bool) (i : Nat) : List Char → Option Nat
  | [] => none
  | c :: rest =>
    if esc then scanGo depth inStr false (i + 1) rest
    else if c = '\\' && inStr then scanGo depth inStr true (i + 1) rest
    else if c = '"' then scanGo depth (!inStr) false (i + 1) rest
    else if inStr then scanGo depth inStr false (i + 1) rest
    else if c = '{' then scanGo (depth + 1) inStr false (i + 1) rest
    else if c = '}' then
      if depth - 1 = 0 then some (i + 1) else scanGo (depth - 1) inStr false (i + 1) rest
    else scanGo depth inStr false (i + 1) rest

/-! ## Markdown fence extraction (schema.py lines 82–86)

Operational embedding of `re.search(r"```(?:json)?\s*\n?(.*?)\n?```", s,
re.DOTALL)`: at the leftmost `` ``` `` that has a closing `` ``` ``, skip an
optional `json` tag and a whitespace run, then take the shortest content up
to an optional newline followed by `` ``` ``. -/

def pyReWsChar (c : Char) : Bool :=
  c = ' ' || c = '\t' || c = '\n' || c = '\x0d' || c = '\x0b' || c = '\x0c'

/-- Find the shortest prefix `content` of `cs` such that the remainder starts
with `` ```  `` or with a newline followed by `` ``` `` (the `(.*?)\n?``` `
tail of the fence regex). -/
def fenceClose : List Char → Option (List Char)
  | [] => none
  | c :: rest =>
    if listStartsWith (c :: rest) ['`', '`', '`'] then some []
    else if c = '\n' && listStartsWith rest ['`', '`', '`'] then some []
    else
      match fenceClose rest with
      | some content => some (c :: content)
      | none => none

/-- Try to match the fence pattern at the current position. -/
def fenceAt (cs : List Char) : Option (List Char) :=
  if listStartsWith cs ['`', '`', '`'] then
    let body := cs.drop 3
    let body := if listStartsWith body ['j', 's', 'o', 'n'] then body.drop 4 else body
    let body := body.dropWhile pyReWsChar
    fenceClose body
  else none

/-- `re.search`: leftmost matching position. -/
def fenceInner : List Char → Option (List Char)
  | [] => none
  | c :: rest =>
    match fenceAt (c :: rest) with
    | some content => some content
    | none => fenceInner rest

/-! ## `_validate_fields` and `validate_action` (schema.py lines 38–158) -/

/-- `VALID_ACTIONS` exactly as in schema.py line 7.  Note that `search` and
`whatif` are absent, although agent.py's system prompt and `execute_action`
both implement them. -/
def VALID_ACTIONS : List String := ["query", "calculate", "answer"]

/-- `_validate_fields` (schema.py lines 38–60). -/
def validateFields (kvs : JsonObj) : Option JsonObj :=
  match kvs.get "action" with
  | some (.str a) =>
    if VALID_ACTIONS.contains a then
      if a = "query" then
        match kvs.get "sql" with
        | some (.str sql) =>
            if listStartsWith (asciiUpper (pyStrip sql.data)) "SELECT".data then some kvs
            else none
        | _ => none
      else if a = "calculate" then
        match kvs.get "expression" with
        | some (.str _) => some kvs
        | _ => none
      else if a = "answer" then
        match kvs.get "text" with
        | some (.str _) => some kvs
        | _ => none
      else some kvs
    else none
  | _ => none

/-- Python's `if result:` on `_validate_fields`'s return value: non-`None`
and a non-empty dict.  (`_validate_fields` only ever returns dicts that
contain the `"action"` key, so the emptiness test never fires.) -/
def truthy : Option JsonObj → Option JsonObj
  | some kvs => if kvs.isNil then none else some kvs
  | none => none

/-- Stage 3 of `validate_action`: brace-balanced extraction of the first
JSON object, repair, parse, validate (schema.py lines 110–158). -/
def validateStage3 (js : List Char) : Option JsonObj × String :=
  match js.findIdx? (· = '{') with
  | none => (none, ⟨js⟩)
  | some start =>
    match scanGo 0 false false start (js.drop start) with
    | none => (none, ⟨js⟩)
    | some endPos =>
      let extracted := (js.take endPos).drop start
      let fixedEx := fixGo false extracted
      match jsonLoads fixedEx with
      | some (.obj kvs) =>
        match truthy (validateFields kvs) with
        | some r => (some r, ⟨fixedEx⟩)
        | none => (none, ⟨js⟩)
      | _ => (none, ⟨js⟩)

/-- Stage 2 of `validate_action`: the repair pass on the whole text, retried
only when it changed something (schema.py lines 98–108). -/
def validateStage2 (js : List Char) : Option JsonObj × String :=
  let fixed := fixGo false js
  if fixed ≠ js then
    match jsonLoads fixed with
    | some (.obj kvs) =>
      match truthy (validateFields kvs) with
      | some r => (some r, ⟨fixed⟩)
      | none => validateStage3 js
    | _ => validateStage3 js
  else validateStage3 js

/-- The markdown-fence unwrapping prelude of `validate_action`
(schema.py lines 82–86). -/
def defence (js0 : List Char) : List Char :=
  if listStartsWith js0 ['`', '`', '`'] then
    match fenceInner js0 with
    | some inner => pyStrip inner
    | none => js0
  else js0

/-- Stage 1 of `validate_action`: the direct parse (schema.py lines 89–96),
falling through to the later stages. -/
def validateStage1 (js : List Char) : Option JsonObj × String :=
  match jsonLoads js with
  | some (.obj kvs) =>
    match truthy (validateFields kvs) with
    | some r => (some r, ⟨js⟩)
    | none => validateStage2 js
  | _ => validateStage2 js

/-- `validate_action` (schema.py lines 63–158): strip, unwrap a markdown
fence, then direct parse → repair pass → brace-balanced extraction. -/
def validateAction (s : String) : Option JsonObj × String :=
  validateStage1 (defence (pyStrip s.data))

/-! ## The expression evaluator (calculator.py)

`ast.parse(expression, mode='eval')` is embedded as a tokenizer plus a
recursive-descent parser for the Python expression fragment the evaluator
can meet: numeric literals, identifiers, `+ - * / % ** //`, unary sign,
parentheses, list displays and calls.  Python exceptions are an explicit
`PyExc` value; numbers are exact rationals tagged with the int/float
distinction (it changes behaviour, e.g. `list * int`). -/

inductive PyExc where
  | valueError (msg : String)
  | typeError (msg : String)
  | zeroDivisionError (msg : String)
  | statisticsError (msg : String)
  | keyError (k : String)
  deriving DecidableEq

inductive CTok where
  | num (isFloat : Bool) (q : ℚ)
  | ident (s : String)
  | op (s : String)
  deriving DecidableEq

def identChar (c : Char) : Bool := c.isAlpha || c.isDigit || c = '_'

def mkFloatVal (ds fs : List Char) : ℚ :=
  (foldDigits 0 ds : ℚ) + (foldDigits 0 fs : ℚ) / (10 : ℚ) ^ fs.length

def tokenize : Nat → List Char → Option (List CTok)
  | 0, _ => none
  | _, [] => some []
  | fuel + 1, c :: rest =>
    if c = ' ' || c = '\t' || c = '\n' || c = '\x0d' then tokenize fuel rest
    else if c.isDigit || (c = '.' && ((rest.head?.map Char.isDigit).getD false)) then
      let ds := (c :: rest).takeWhile Char.isDigit
      let r1 := (c :: rest).dropWhile Char.isDigit
      match r1 with
      | '.' :: r2 =>
        let fs := r2.takeWhile Char.isDigit
        match tokenize fuel (r2.dropWhile Char.isDigit) with
        | some ts => some (.num true (mkFloatVal ds fs) :: ts)
        | none => none
      | _ =>
        match tokenize fuel r1 with
        | some ts => some (.num false (foldDigits 0 ds : ℚ) :: ts)
        | none => none
    else if c.isAlpha || c = '_' then
      let id := (c :: rest).takeWhile identChar
      match tokenize fuel ((c :: rest).dropWhile identChar) with
      | some ts => some (.ident ⟨id⟩ :: ts)
      | none => none
    else if c = '*' then
      match rest with
      | '*' :: r => (tokenize fuel r).map (.op "**" :: ·)
      | _ => (tokenize fuel rest).map (.op "*" :: ·)
    else if c = '/' then
      match rest with
      | '/' :: r => (tokenize fuel r).map (.op "//" :: ·)
      | _ => (tokenize fuel rest).map (.op "/" :: ·)
    else if c = '+' then (tokenize fuel rest).map (.op "+" :: ·)
    else if c = '-' then (tokenize fuel rest).map (.op "-" :: ·)
    else if c = '%' then (tokenize fuel rest).map (.op "%" :: ·)
    else if c = '(' then (tokenize fuel rest).map (.op "(" :: ·)
    else if c = ')' then (tokenize fuel rest).map (.op ")" :: ·)
    else if c = '[' then (tokenize fuel rest).map (.op "[" :: ·)
    else if c = ']' then (tokenize fuel rest).map (.op "]" :: ·)
    else if c = ',' then (tokenize fuel rest).map (.op "," :: ·)
    else none

inductive POp where
  | add | sub | mult | div | mod | pow | floorDiv
  deriving DecidableEq

inductive PUOp where
  | usub | uadd
  deriving DecidableEq

mutual
/-- The `ast` expression nodes `_eval_node` can meet. -/
inductive PyAst where
  | econst (isFloat : Bool) (q : ℚ)
  | name (s : String)
  | elist (elts : PyList)
  | binOp (op : POp) (l r : PyAst)
  | unaryOp (op : PUOp) (e : PyAst)
  | call (f : PyAst) (args : PyList)
  deriving DecidableEq

inductive PyList where
  | nil
  | cons (hd : PyAst) (tl : PyList)
  deriving DecidableEq
end

mutual
def pyExpr : Nat → List CTok → Option (PyAst × List CTok)
  | 0, _ => none
  | fuel + 1, ts =>
    match pyTerm fuel ts with
    | some (e, r) => pyExprRest fuel e r
    | none => none

def pyExprRest : Nat → PyAst → List CTok → Option (PyAst × List CTok)
  | 0, _, _ => none
  | fuel + 1, e, ts =>
    match ts with
    | .op "+" :: r =>
      match pyTerm fuel r with
      | some (t, r2) => pyExprRest fuel (.binOp .add e t) r2
      | none => none
    | .op "-" :: r =>
      match pyTerm fuel r with
      | some (t, r2) => pyExprRest fuel (.binOp .sub e t) r2
      | none => none
    | _ => some (e, ts)

def pyTerm : Nat → List CTok → Option (PyAst × List CTok)
  | 0, _ => none
  | fuel + 1, ts =>
    match pyFactor fuel ts with
    | some (e, r) => pyTermRest fuel e r
    | none => none

def pyTermRest : Nat → PyAst → List CTok → Option (PyAst × List CTok)
  | 0, _, _ => none
  | fuel + 1, e, ts =>
    match ts with
    | .op "*" :: r =>
      match pyFactor fuel r with
      | some (t, r2) => pyTermRest fuel (.binOp .mult e t) r2
      | none => none
    | .op "/" :: r =>
      match pyFactor fuel r with
      | some (t, r2) => pyTermRest fuel (.binOp .div e t) r2
      | none => none
    | .op "%" :: r =>
      match pyFactor fuel r with
      | some (t, r2) => pyTermRest fuel (.binOp .mod e t) r2
      | none => none
    | .op "//" :: r =>
      match pyFactor fuel r with
      | some (t, r2) => pyTermRest fuel (.binOp .floorDiv e t) r2
      | none => none
    | _ => some (e, ts)

def pyFactor : Nat → List CTok → Option (PyAst × List CTok)
  | 0, _ => none
  | fuel + 1, ts =>
    match ts with
    | .op "-" :: r =>
      match pyFactor fuel r with
      | some (e, r2) => some (.unaryOp .usub e, r2)
      | none => none
    | .op "+" :: r =>
      match pyFactor fuel r with
      | some (e, r2) => some (.unaryOp .uadd e, r2)
      | none => none
    | _ => pyPower fuel ts

def pyPower : Nat → List CTok → Option (PyAst × List CTok)
  | 0, _ => none
  | fuel + 1, ts =>
    match pyPostfix fuel ts with
    | some (e, r) =>
      match r with
      | .op "**" :: r2 =>
        match pyFactor fuel r2 with
        | some (t, r3) => some (.binOp .pow e t, r3)
        | none => none
      | _ => some (e, r)
    | none => none

def pyPostfix : Nat → List CTok → Option (PyAst × List CTok)
  | 0, _ => none
  | fuel + 1, ts =>
    match pyAtom fuel ts with
    | some (e, r) => pyTrailers fuel e r
    | none => none

def pyTrailers : Nat → PyAst → List CTok → Option (PyAst × List CTok)
  | 0, _, _ => none
  | fuel + 1, e, ts =>
    match ts with
    | .op "(" :: r =>
      match r with
      | .op ")" :: r2 => pyTrailers fuel (.call e .nil) r2
      | _ =>
        match pyArgs fuel r with
        | some (args, r2) => pyTrailers fuel (.call e args) r2
        | none => none
    | _ => some (e, ts)

def pyArgs : Nat → List CTok → Option (PyList × List CTok)
  | 0, _ => none
  | fuel + 1, ts =>
    match pyExpr fuel ts with
    | some (e, r) =>
      match r with
      | .op "," :: r2 =>
        match pyArgs fuel r2 with
        | some (args, r3) => some (.cons e args, r3)
        | none => none
      | .op ")" :: r2 => some (.cons e .nil, r2)
      | _ => none
    | none => none

def pyAtom : Nat → List CTok → Option (PyAst × List CTok)
  | 0, _ => none
  | fuel + 1, ts =>
    match ts with
    | .num f q :: r => some (.econst f q, r)
    | .ident s :: r => some (.name s, r)
    | .op "(" :: r =>
      match pyExpr fuel r with
      | some (e, .op ")" :: r2) => some (e, r2)
      | _ => none
    | .op "[" :: r =>
      match r with
      | .op "]" :: r2 => some (.elist .nil, r2)
      | _ =>
        match pyElems fuel r with
        | some (elts, r2) => some (.elist elts, r2)
        | none => none
    | _ => none

def pyElems : Nat → List CTok → Option (PyList × List CTok)
  | 0, _ => none
  | fuel + 1, ts =>
    match pyExpr fuel ts with
    | some (e, r) =>
      match r with
      | .op "," :: r2 =>
        match pyElems fuel r2 with
        | some (elts, r3) => some (.cons e elts, r3)
        | none => none
      | .op "]" :: r2 => some (.cons e .nil, r2)
      | _ => none
    | none => none
end

/-- `ast.parse(expression, mode='eval')`: tokenize, parse one expression,
require the whole token stream to be consumed. -/
def astParse (s : String) : Option PyAst :=
  match tokenize (s.data.length + 1) s.data with
  | some ts =>
    match pyExpr (16 * (ts.length + 1)) ts with
    | some (e, []) => some e
    | _ => none
  | none => none

/-- Runtime values of the evaluator: numbers (rationals tagged with the
int/float distinction) and Python lists. -/
inductive PyVal where
  | num (isFloat : Bool) (q : ℚ)
  | plist (xs : List PyVal)

def PyVal.isList : PyVal → Bool
  | .plist _ => true
  | _ => false

/-- `operator.add`: numbers add; lists concatenate; a list and a number is a
`TypeError` (this exception is NOT caught by calculate.py). -/
def pyAdd : PyVal → PyVal → Except PyExc PyVal
  | .num f1 a, .num f2 b => .ok (.num (f1 || f2) (a + b))
  | .plist xs, .plist ys => .ok (.plist (xs ++ ys))
  | .plist _, .num f _ =>
      .error (.typeError ("can only concatenate list (not \"" ++
        (if f then "float" else "int") ++ "\") to list"))
  | .num _ _, .plist _ => .error (.typeError "unsupported operand type(s) for +: 'int' and 'list'")

def pySub : PyVal → PyVal → Except PyExc PyVal
  | .num f1 a, .num f2 b => .ok (.num (f1 || f2) (a - b))
  | _, _ => .error (.typeError "unsupported operand type(s) for -")

/-- `operator.mul`: numbers multiply; `list * int` (and `int * list`)
replicates; anything else involving a list is a `TypeError`. -/
def pyMult : PyVal → PyVal → Except PyExc PyVal
  | .num f1 a, .num f2 b => .ok (.num (f1 || f2) (a * b))
  | .plist xs, .num false n => .ok (.plist (List.flatten (List.replicate n.num.toNat xs)))
  | .num false n, .plist xs => .ok (.plist (List.flatten (List.replicate n.num.toNat xs)))
  | _, _ => .error (.typeError "can't multiply sequence by non-int of type 'list' or 'float'")

def pyDiv : PyVal → PyVal → Except PyExc PyVal
  | .num _ a, .num _ b =>
      if b = 0 then .error (.zeroDivisionError "division by zero")
      else .ok (.num true (a / b))
  | _, _ => .error (.typeError "unsupported operand type(s) for /")

def pyNeg : PyVal → Except PyExc PyVal
  | .num f a => .ok (.num f (-a))
  | .plist _ => .error (.typeError "bad operand type for unary -: 'list'")

def pyPos : PyVal → Except PyExc PyVal
  | .num f a => .ok (.num f a)
  | .plist _ => .error (.typeError "bad operand type for unary +: 'list'")

/-- The operator allow-list `OPERATORS` (calculator.py lines 9–16): node
kinds with an entry. -/
def opSupported : POp → Bool
  | .add | .sub | .mult | .div => true
  | _ => false

def opName : POp → String
  | .add => "Add"
  | .sub => "Sub"
  | .mult => "Mult"
  | .div => "Div"
  | .mod => "Mod"
  | .pow => "Pow"
  | .floorDiv => "FloorDiv"

def applyOp : POp → PyVal → PyVal → Except PyExc PyVal
  | .add, a, b => pyAdd a b
  | .sub, a, b => pySub a b
  | .mult, a, b => pyMult a b
  | .div, a, b => pyDiv a b
  | _, _, _ => .error (.typeError "unreachable: unsupported operator filtered earlier")

/-- Extract the numeric entries of an argument list; `none` when some entry
is a (nested) list, which makes the statistics functions raise `TypeError`. -/
def allNums : List PyVal → Option (List (Bool × ℚ))
  | [] => some []
  | .num f q :: rest => (allNums rest).map ((f, q) :: ·)
  | .plist _ :: _ => none

def sumQ (l : List (Bool × ℚ)) : ℚ := (l.map Prod.snd).sum

def anyFloat (l : List (Bool × ℚ)) : Bool := l.any Prod.fst

/-- `statistics.mean`: exact rational mean; the result is an int exactly
when all inputs are ints and the division is exact (CPython's `_convert`). -/
def statMean (l : List (Bool × ℚ)) : PyVal :=
  let m := sumQ l / (l.length : ℚ)
  .num (anyFloat l || m.den ≠ 1) m

def sortQ (l : List (Bool × ℚ)) : List (Bool × ℚ) :=
  l.mergeSort (fun a b => a.2 ≤ b.2)

/-- `statistics.median`: middle of the sorted data, or the true-division
average of the two middles (a float) for even length. -/
def statMedian (l : List (Bool × ℚ)) : PyVal :=
  let s := sortQ l
  if l.length % 2 = 1 then
    match s.get? (l.length / 2) with
    | some (f, q) => .num f q
    | none => .num true 0
  else
    match s.get? (l.length / 2 - 1), s.get? (l.length / 2) with
    | some (_, a), some (_, b) => .num true ((a + b) / 2)
    | _, _ => .num true 0

def countVal (q : ℚ) (l : List (Bool × ℚ)) : Nat :=
  (l.filter (fun p => p.2 = q)).length

/-- `statistics.mode` (Python ≥ 3.8): the first value attaining the maximal
multiplicity. -/
def statMode (l : List (Bool × ℚ)) : PyVal :=
  let best := l.foldl (fun acc p => max acc (countVal p.2 l)) 0
  match l.find? (fun p => countVal p.2 l = best) with
  | some (f, q) => .num f q
  | none => .num true 0

/-- Twelve Newton iterations for a square root.  `statistics.stdev`'s
successful numeric value is a floating-point square root and lies outside
the exact-rational model; no claim observes it (the claims only exercise
`stdev`'s arity failure), so it is modelled by this fixed computable
approximation. -/
def sqrtNewton (q : ℚ) : ℚ :=
  (List.range 12).foldl (fun x _ => if x = 0 then 0 else (x + q / x) / 2) (q + 1)

def statStdev (l : List (Bool × ℚ)) : PyVal :=
  let m := sumQ l / (l.length : ℚ)
  let var := ((l.map (fun p => (p.2 - m) ^ 2)).sum) / ((l.length : ℚ) - 1)
  .num true (sqrtNewton var)

/-- `_stat_range` (calculator.py lines 19–23): `max(values) - min(values)`. -/
def statRange (l : List (Bool × ℚ)) : Except PyExc PyVal :=
  match l with
  | [] => .error (.valueError "range() requires at least one value")
  | (f, q) :: rest =>
    let mx := rest.foldl (fun acc p => if p.2 > acc.2 then p else acc) (f, q)
    let mn := rest.foldl (fun acc p => if p.2 < acc.2 then p else acc) (f, q)
    .ok (.num (mx.1 || mn.1) (mx.2 - mn.2))

/-- The function allow-list `FUNCTIONS` (calculator.py lines 27–37). -/
def FUNCTION_NAMES : List String :=
  ["mean", "median", "mode", "stdev", "range", "avg", "average", "std"]

/-- `", ".join(sorted(FUNCTIONS.keys()))`. -/
def allowedFns : String := "average, avg, mean, median, mode, range, std, stdev"

def applyFn (fname : String) (args : List PyVal) : Except PyExc PyVal :=
  if fname = "range" then
    match allNums args with
    | some l => statRange l
    | none => .error (.typeError "'<' not supported between instances of 'list' and 'int'")
  else
    match allNums args with
    | none => .error (.typeError "unsupported operand type(s): 'list'")
    | some l =>
      if fname = "mean" || fname = "avg" || fname = "average" then .ok (statMean l)
      else if fname = "median" then .ok (statMedian l)
      else if fname = "mode" then .ok (statMode l)
      else .ok (statStdev l)

mutual
/-- `_eval_node` (calculator.py lines 40–98). -/
def evalNode : PyAst → Except PyExc PyVal
  | .econst f q => .ok (.num f q)
  | .elist elts =>
    match evalElems elts with
    | .ok xs => .ok (.plist xs)
    | .error e => .error e
  | .binOp op l r =>
    if opSupported op then
      match evalNode l with
      | .ok lv =>
        match evalNode r with
        | .ok rv => applyOp op lv rv
        | .error e => .error e
      | .error e => .error e
    else .error (.valueError ("Unsupported operator: " ++ opName op))
  | .unaryOp op e =>
    match evalNode e with
    | .ok v => (match op with | .usub => pyNeg v | .uadd => pyPos v)
    | .error e => .error e
  | .call f args =>
    match f with
    | .name fn =>
      let fname : String := ⟨asciiLower fn.data⟩
      if FUNCTION_NAMES.contains fname then
        match evalArgsFlat args with
        | .ok argv =>
          if argv.isEmpty then
            .error (.valueError (fname ++ "() requires at least one argument"))
          else if (fname = "stdev" || fname = "std") && argv.length < 2 then
            .error (.valueError "stdev() requires at least two values")
          else applyFn fname argv
        | .error e => .error e
      else
        .error (.valueError ("Unknown function: " ++ fname ++ ". Allowed: " ++ allowedFns))
    | _ => .error (.valueError "Only simple function names are allowed")
  | .name _ => .error (.valueError "Unsupported expression type: Name")

def evalElems : PyList → Except PyExc (List PyVal)
  | .nil => .ok []
  | .cons hd tl =>
    match evalNode hd with
    | .ok v =>
      match evalElems tl with
      | .ok vs => .ok (v :: vs)
      | .error e => .error e
    | .error e => .error e

/-- Argument evaluation with one-level list flattening (calculator.py
lines 80–86). -/
def evalArgsFlat : PyList → Except PyExc (List PyVal)
  | .nil => .ok []
  | .cons hd tl =>
    match evalNode hd with
    | .ok v =>
      match evalArgsFlat tl with
      | .ok vs =>
        match v with
        | .plist xs => .ok (xs ++ vs)
        | _ => .ok (v :: vs)
      | .error e => .error e
    | .error e => .error e
end

/-- `calculate` (calculator.py lines 101–136): parse, evaluate, require a
number, convert `SyntaxError`, `ZeroDivisionError` and `StatisticsError`
to `ValueError`.  `TypeError` is NOT converted and propagates. -/
def calculate (expression : String) : Except PyExc ℚ :=
  match astParse expression with
  | none => .error (.valueError "Invalid expression syntax: invalid syntax")
  | some tree =>
    match evalNode tree with
    | .ok (.plist _) => .error (.valueError "Expression must evaluate to a single number, not a list")
    | .ok (.num _ q) => .ok q
    | .error (.zeroDivisionError _) => .error (.valueError "Division by zero")
    | .error (.statisticsError m) => .error (.valueError ("Statistics error: " ++ m))
    | .error e => .error e

/-! ## The agent loop (agent.py)

`run_agent` is embedded with its collaborators (`query_db`, `search_games`,
`run_scenario`) and the model backend (`call_llm`) as parameters, following
spec §6.  The `on_progress`/`debug` observers (pure side channels) are not
modelled.  The result record carries, besides the returned string (or the
exception that propagates), the number of model calls made in each executed
turn and the list of actions passed to `execute_action` — the observation
the spec's §8 asks to verify "by counting calls with a stub model backend". -/

def MAX_RETRIES : Nat := 3

def MAX_TURNS : Nat := 10

structure Msg where
  role : String
  content : String
  deriving DecidableEq

/-- The external collaborators of the Tool Dispatcher, each able to fail
(`Except String` models "raises an exception with this message"). -/
structure Collab where
  queryDb : Json → Except String (List Json)
  searchGames : Json → Json → Except String (List Json)
  runScenario : Json → JsonObj → Except String JsonObj

def JsonArr.ofList : List Json → JsonArr
  | [] => .nil
  | v :: tl => .cons v (JsonArr.ofList tl)

/-- `json.dumps(results, indent=2)`: the pretty-printing whitespace is not
modelled (no claim observes the text of a non-empty result). -/
def jsonDumpsList (rs : List Json) : String := renderString (.arr (JsonArr.ofList rs))

/-- `f"Result: {result}"` formats a Python float; its decimal rendering is
abstracted by the rational's string form (no claim observes it). -/
def pyFloatStr (q : ℚ) : String := toString q

/-- `execute_action` (agent.py lines 163–209).  A Python exception that the
source does not catch is an `.error` (it propagates past the Dispatcher). -/
def executeAction (co : Collab) (action : JsonObj) : Except PyExc (String × Bool) :=
  match action.get "action" with
  | none => .error (.keyError "action")
  | some atype =>
    if atype = .str "query" then
      -- KeyError from action["sql"] happens inside `try: ... except Exception`
      match action.get "sql" with
      | none => .ok ("Query error: 'sql'", true)
      | some v =>
        match co.queryDb v with
        | .error e => .ok ("Query error: " ++ e, true)
        | .ok [] => .ok ("Query returned no results.", false)
        | .ok rs => .ok (jsonDumpsList rs, false)
    else if atype = .str "calculate" then
      -- only ValueError is caught here; KeyError/TypeError propagate
      match action.get "expression" with
      | none => .error (.keyError "expression")
      | some (.str e) =>
        match calculate e with
        | .ok q => .ok ("Result: " ++ pyFloatStr q, false)
        | .error (.valueError m) =>
            .ok ("Calculation error: " ++ m ++
              ". Remember: calculator only supports numbers and +, -, *, /, parentheses. Try a different approach.", true)
        | .error exc => .error exc
      | some _ => .error (.typeError "ast.parse: expected str")
    else if atype = .str "search" then
      match action.get "query" with
      | none => .ok ("Search error: 'query'", true)
      | some qv =>
        match co.searchGames qv ((action.get "n").getD (.int 5)) with
        | .error e => .ok ("Search error: " ++ e, true)
        | .ok [] => .ok ("No matching games found.", false)
        | .ok rs => .ok (jsonDumpsList rs, false)
    else if atype = .str "whatif" then
      match action.get "scenario_type" with
      | none => .ok ("What-if error: 'scenario_type'", true)
      | some st =>
        match action.get "params" with
        | some (.obj ps) =>
          match co.runScenario st ps with
          | .error e => .ok ("What-if error: " ++ e, true)
          | .ok result =>
            match result.get "error" with
            | some errv => .ok ("Scenario error: " ++ renderString errv, true)
            | none => .ok (renderString (.obj result), false)
        | some _ => .ok ("What-if error: run_scenario() argument after ** must be a mapping", true)
        | none => .ok ("What-if error: 'params'", true)
    else .ok ("Unknown action type.", true)

def invalidFormatMsg : String :=
  "Invalid format. Respond with EXACTLY ONE JSON object, nothing else. Example: \x7b\"action\": \"query\", \"sql\": \"SELECT ...\"\x7d"

/-- The inner `for attempt in range(MAX_RETRIES)` of `run_agent` (agent.py
lines 246–266): call the model, normalize, break on success; on failure
append the raw response and the repair prompt unless this was the last
attempt.  Returns the validated action with its cleaned text (if any), the
message list, and the number of model calls made. -/
def retryLoop (llm : List Msg → String → String) (system : String) :
    Nat → Nat → List Msg → Option (JsonObj × String) × List Msg × Nat
  | 0, _, msgs => (none, msgs, 0)
  | fuel + 1, attempt, msgs =>
    let w := llm msgs system
    match validateAction w with
    | (some d, cleaned) => (some (d, cleaned), msgs, 1)
    | (none, _) =>
      let msgs' :=
        if attempt < MAX_RETRIES - 1 then
          msgs ++ [⟨"assistant", w⟩, ⟨"user", invalidFormatMsg⟩]
        else msgs
      let r := retryLoop llm system fuel (attempt + 1) msgs'
      (r.1, r.2.1, r.2.2 + 1)

structure RunResult where
  /-- The string `run_agent` returns, or the exception that propagates out of it. -/
  outcome : Except PyExc String
  /-- Number of model calls in each executed turn (instrumentation). -/
  perTurnCalls : List Nat
  /-- The actions passed to `execute_action`, in order (instrumentation). -/
  dispatched : List JsonObj

/-- The outer `for turn in range(MAX_TURNS)` of `run_agent` (agent.py lines
240–329). -/
def turnLoop (llm : List Msg → String → String) (system : String) (co : Collab) :
    Nat → List Msg → RunResult
  | 0, _ => ⟨.ok "Error: Agent reached maximum turns without providing an answer.", [], []⟩
  | fuel + 1, msgs =>
    match retryLoop llm system MAX_RETRIES 0 msgs with
    | (none, _, calls) =>
        ⟨.ok "Error: Agent failed to produce valid JSON after multiple attempts.", [calls], []⟩
    | (some (action, cleaned), msgs1, calls) =>
      match action.get "action" with
      | none => ⟨.error (.keyError "action"), [calls], []⟩
      | some atype =>
        if atype = .str "answer" then
          match action.get "text" with
          | some (.str t) => ⟨.ok t, [calls], []⟩
          -- `return action["text"]` on a non-string value, modelled by its
          -- rendering; unreachable, validation guarantees a string
          | some v => ⟨.ok (renderString v), [calls], []⟩
          | none => ⟨.error (.keyError "text"), [calls], []⟩
        else
          match executeAction co action with
          | .error e => ⟨.error e, [calls], [action]⟩
          | .ok (result, _isError) =>
            let msgs2 := msgs1 ++ [⟨"assistant", cleaned⟩, ⟨"user", "Tool result:\n" ++ result⟩]
            let r := turnLoop llm system co fuel msgs2
            ⟨r.outcome, calls :: r.perTurnCalls, action :: r.dispatched⟩

/-- `run_agent` (agent.py lines 212–329): seed the conversation with the
caller-supplied history and the user question, then run the turn loop. -/
def runAgent (llm : List Msg → String → String) (system : String) (co : Collab)
    (userQuery : String) (history : List Msg) : RunResult :=
  turnLoop llm system co MAX_TURNS (history ++ [⟨"user", userQuery⟩])

/-! ## Concrete action values and collaborator stubs used in the theorems -/

/-- The spec's own example of a well-formed search action. -/
def searchActionText : String :=
  "\x7b\"action\": \"search\", \"query\": \"cooperative family games\", \"n\": 5\x7d"

/-- The spec's own example of a well-formed what-if action. -/
def whatifActionText : String :=
  "\x7b\"action\": \"whatif\", \"scenario_type\": \"price_change\", \"params\": \x7b\"target\": \"games\", \"change_percent\": 10\x7d\x7d"

/-- A validated calculate action whose expression makes `_eval_node` raise
`TypeError` (list + int). -/
def calcListAction : JsonObj :=
  .cons "action" (.str "calculate") (.cons "expression" (.str "[1, 2] + 3") .nil)

def calcListActionText : String :=
  "\x7b\"action\": \"calculate\", \"expression\": \"[1, 2] + 3\"\x7d"

/-- A validated query action. -/
def queryActionEx : JsonObj :=
  .cons "action" (.str "query") (.cons "sql" (.str "SELECT * FROM board_games") .nil)

/-- Collaborator stub whose query executor returns zero rows. -/
def stubCollabEmpty : Collab where
  queryDb := fun _ => .ok []
  searchGames := fun _ _ => .ok []
  runScenario := fun _ _ => .ok .nil

/-- A direct-parse-accepted input with trailing whitespace (CPython's
`json.loads` accepts surrounding whitespace, but `validate_action` strips
before answering). -/
def c9Input : String := "\x7b\"action\": \"answer\", \"text\": \"There are 15 games.\"\x7d\n"

def c9Stripped : String := "\x7b\"action\": \"answer\", \"text\": \"There are 15 games.\"\x7d"

def c9Obj : JsonObj :=
  .cons "action" (.str "answer") (.cons "text" (.str "There are 15 games.") .nil)

/-- Stub backend for the C4 witness: one malformed response, then a valid
answer action. -/
def c4StubLlm : List Msg → String → String := fun msgs _ =>
  if msgs.length ≤ 1 then "I will check the database first."
  else "\x7b\"action\": \"answer\", \"text\": \"There are 15 games.\"\x7d"

def c4AnswerObj : JsonObj :=
  .cons "action" (.str "answer") (.cons "text" (.str "There are 15 games.") .nil)

def c8RawObj : JsonObj :=
  .cons "action" (.str "answer") (.cons "text" (.str "a\nb\tc") .nil)

def c3BadQuery : JsonObj :=
  .cons "action" (.str "query") (.cons "sql" (.str "DROP TABLE games") .nil)

def c3StubLlm : List Msg → String → String := fun _ _ => renderString (.obj c3BadQuery)

def c7Obj : JsonObj :=
  .cons "action" (.str "answer") (.cons "text" (.str "42 games") .nil)

def c7BraceProse : String := "note \x7b " ++ renderString (.obj c7Obj)

theorem pNat_cons (c : Char) (t : List Char) :
    pNat (c :: t) =
      if c = '0' then some (0, t)
      else if c.isDigit then
        some (foldDigits (digVal c) (t.takeWhile Char.isDigit), t.dropWhile Char.isDigit)
      else none := rfl

theorem pInt_cons (c : Char) (t : List Char) :
    pInt (c :: t) =
      if c = '-' then
        match pNat t with
        | some (n, r) => numTailCheck (-(n : Int)) r
        | none => none
      else
        match pNat (c :: t) with
        | some (n, r) => numTailCheck ((n : Int)) r
        | none => none := rfl

/-! ## Decimal digit lemmas -/

theorem natToDigits_eq (n : Nat) :
    natToDigits n =
      if n < 10 then [Char.ofNat (48 + n)]
      else natToDigits (n / 10) ++ [Char.ofNat (48 + n % 10)] := by
  rw [natToDigits]
  split <;> rfl

theorem digit_facts {m : Nat} (h : m < 10) :
    (Char.ofNat (48 + m)).isDigit = true ∧ digVal (Char.ofNat (48 + m)) = m ∧
      ((Char.ofNat (48 + m) = '0') ↔ m = 0) := by
  interval_cases m <;> exact ⟨by decide, by decide, by decide⟩

theorem natToDigits_ne_nil (n : Nat) : natToDigits n ≠ [] := by
  rw [natToDigits_eq]
  split <;> simp

theorem natToDigits_all_digits (n : Nat) : ∀ c ∈ natToDigits n, c.isDigit = true := by
  induction n using Nat.strong_induction_on with
  | _ n ih =>
    rw [natToDigits_eq]
    split
    · next h =>
      intro c hc
      simp only [List.mem_singleton] at hc
      subst hc
      exact (digit_facts h).1
    · next h =>
      intro c hc
      rw [List.mem_append] at hc
      rcases hc with hc | hc
      · exact ih (n / 10) (Nat.div_lt_self (by omega) (by omega)) c hc
      · simp only [List.mem_singleton] at hc
        subst hc
        exact (digit_facts (Nat.mod_lt _ (by omega))).1

theorem natToDigits_head_ne_zero {n : Nat} (hn : n ≠ 0) :
    ∀ {c t}, natToDigits n = c :: t → c ≠ '0' := by
  induction n using Nat.strong_induction_on with
  | _ n ih =>
    intro c t he
    rw [natToDigits_eq] at he
    split at he
    · next h =>
      simp only [List.cons.injEq] at he
      rw [← he.1]
      exact fun hc => hn ((digit_facts h).2.2.mp hc)
    · next h =>
      rcases hd : natToDigits (n / 10) with _ | ⟨c', t'⟩
      · exact absurd hd (natToDigits_ne_nil _)
      · rw [hd] at he
        simp only [List.cons_append, List.cons.injEq] at he
        rw [← he.1]
        exact ih (n / 10) (Nat.div_lt_self (by omega) (by omega))
          (by omega : n / 10 ≠ 0) hd

theorem foldDigits_nil (acc : Nat) : foldDigits acc [] = acc := rfl

theorem foldDigits_cons (acc : Nat) (c : Char) (t : List Char) :
    foldDigits acc (c :: t) = foldDigits (acc * 10 + digVal c) t := rfl

theorem foldDigits_append (acc : Nat) (l1 l2 : List Char) :
    foldDigits acc (l1 ++ l2) = foldDigits (foldDigits acc l1) l2 := by
  induction l1 generalizing acc with
  | nil => rfl
  | cons c t ih =>
    rw [List.cons_append, foldDigits_cons, foldDigits_cons, ih]

theorem foldDigits_natToDigits (n : Nat) :
    ∀ acc, foldDigits acc (natToDigits n) = acc * 10 ^ (natToDigits n).length + n := by
  induction n using Nat.strong_induction_on with
  | _ n ih =>
    intro acc
    rw [natToDigits_eq]
    split
    · next h =>
      rw [foldDigits_cons, foldDigits_nil, (digit_facts h).2.1,
        List.length_singleton, pow_one]
    · next h =>
      rw [foldDigits_append, ih (n / 10) (Nat.div_lt_self (by omega) (by omega)) acc]
      have hm := (digit_facts (Nat.mod_lt n (y := 10) (by omega))).2.1
      rw [foldDigits_cons, foldDigits_nil, hm,
        List.length_append, List.length_singleton,
        pow_succ 10 (natToDigits (n / 10)).length]
      have := Nat.div_add_mod n 10
      nlinarith [this]

/-- `pNat` inverts `natToDigits` when the following text does not start with
a digit. -/
theorem pNat_natToDigits (n : Nat) (rest : List Char)
    (hr : ∀ d ∈ rest.head?, d.isDigit = false) :
    pNat (natToDigits n ++ rest) = some (n, rest) := by
  rcases he : natToDigits n with _ | ⟨c, ds⟩
  · exact absurd he (natToDigits_ne_nil _)
  have hds : ∀ x ∈ ds, x.isDigit = true := by
    intro x hx
    exact natToDigits_all_digits n x (by rw [he]; exact List.mem_cons_of_mem _ hx)
  have htake : (ds ++ rest).takeWhile Char.isDigit = ds := by
    rw [List.takeWhile_append_of_pos hds]
    rcases rest with _ | ⟨d, t⟩
    · simp
    · have := hr d (by simp)
      simp [List.takeWhile_cons, this]
  have hdrop : (ds ++ rest).dropWhile Char.isDigit = rest := by
    rw [List.dropWhile_append_of_pos hds]
    rcases rest with _ | ⟨d, t⟩
    · simp
    · have := hr d (by simp)
      simp [List.dropWhile_cons, this]
  have hfold : foldDigits (digVal c) ds = n := by
    have h0 := foldDigits_natToDigits n 0
    rw [he, foldDigits_cons] at h0
    simpa using h0
  by_cases hn : n = 0
  · subst hn
    have h0 : natToDigits 0 = ['0'] := by rw [natToDigits_eq]; norm_num
    rw [h0] at he
    have hx := he.symm
    injection hx with h1 h2
    subst h1
    subst h2
    simp [pNat]
  · have hc0 : c ≠ '0' := natToDigits_head_ne_zero hn he
    have hcd : c.isDigit = true :=
      natToDigits_all_digits n c (by rw [he]; exact List.mem_cons_self _ _)
    rw [List.cons_append, pNat_cons, if_neg hc0, if_pos hcd, htake, hdrop, hfold]

/-- `pInt` inverts `renderInt` when the following text cannot extend a
numeral. -/
theorem numTailCheck_delim (m : Int) (rest : List Char) (hrest : numDelim rest = true) :
    numTailCheck m rest = some (m, rest) := by
  rcases rest with _ | ⟨d, t⟩
  · rfl
  · simp only [numDelim, Bool.not_eq_true', Bool.or_eq_false_iff] at hrest
    obtain ⟨⟨⟨h1, h2⟩, h3⟩, h4⟩ := hrest
    simp [numTailCheck, h1, h2, h3, h4]

theorem pInt_renderInt (i : Int) (rest : List Char) (hrest : numDelim rest = true) :
    pInt (renderInt i ++ rest) = some (i, rest) := by
  have hhead : ∀ d ∈ rest.head?, d.isDigit = false := by
    intro d hd
    rcases rest with _ | ⟨d2, t⟩
    · simp at hd
    · simp only [List.head?_cons, Option.mem_def, Option.some.injEq] at hd
      subst hd
      simp only [numDelim, Bool.not_eq_true', Bool.or_eq_false_iff] at hrest
      exact hrest.1.1.1
  rcases he : natToDigits i.natAbs with _ | ⟨c, ds⟩
  · exact absurd he (natToDigits_ne_nil _)
  have hcd : c.isDigit = true :=
    natToDigits_all_digits _ c (by rw [he]; exact List.mem_cons_self _ _)
  have hcm : ¬ c = '-' := by
    intro hc
    subst hc
    exact absurd hcd (by decide)
  have hp : pNat (natToDigits i.natAbs ++ rest) = some (i.natAbs, rest) :=
    pNat_natToDigits _ _ hhead
  by_cases hlt : i < 0
  · rw [renderInt, if_pos hlt, List.cons_append, pInt_cons, if_pos rfl, hp]
    show numTailCheck (-(i.natAbs : Int)) rest = some (i, rest)
    rw [show -(i.natAbs : Int) = i by omega]
    exact numTailCheck_delim _ _ hrest
  · rw [renderInt, if_neg hlt, he, List.cons_append, pInt_cons, if_neg hcm,
      ← List.cons_append, ← he, hp]
    show numTailCheck ((i.natAbs : Int)) rest = some (i, rest)
    rw [show (i.natAbs : Int) = i by omega]
    exact numTailCheck_delim _ _ hrest

/-! ## JSON string-literal round trip -/

theorem pStr_esc (e : Char) (t : List Char) :
    pStr ('\\' :: e :: t) =
      if e = 'u' then
        (match t with
         | a :: b :: c2 :: d :: rest2 =>
           match hexDigit a, hexDigit b, hexDigit c2, hexDigit d with
           | some x, some y, some z, some w =>
             match pStr rest2 with
             | some (s, r) => some (Char.ofNat (((x * 16 + y) * 16 + z) * 16 + w) :: s, r)
             | none => none
           | _, _, _, _ => none
         | _ => none)
      else
        match escChar e, pStr t with
        | some ch, some (s, r) => some (ch :: s, r)
        | _, _ => none := by
  conv_lhs => rw [pStr.eq_def]
  rfl

theorem pStr_plain (c : Char) (t : List Char) (h1 : ¬ c = '"') (h2 : ¬ c = '\\')
    (h3 : ¬ c.toNat < 0x20) :
    pStr (c :: t) =
      match pStr t with
      | some (s, r) => some (c :: s, r)
      | none => none := by
  unfold pStr
  rw [if_neg h1, if_neg h2, if_neg h3, ← pStr.eq_def]

theorem pStr_escSeq (s : List Char) (rest : List Char)
    (h : ∀ c ∈ s, goodChar c = true) :
    pStr ((s.map escSeq).flatten ++ '"' :: rest) = some (s, rest) := by
  induction s with
  | nil =>
    rw [show (List.map escSeq ([] : List Char)).flatten ++ '"' :: rest = '"' :: rest by simp,
      pStr.eq_def]
    rfl
  | cons c t ih =>
    have hc : goodChar c = true := h c (List.mem_cons_self _ _)
    have iht := ih fun x hx => h x (List.mem_cons_of_mem _ hx)
    simp only [List.map_cons, List.flatten_cons, List.append_assoc]
    by_cases h1 : c = '"'
    · subst h1
      rw [show escSeq '"' = ['\\', '"'] from rfl]
      simp only [List.cons_append, List.nil_append]
      rw [pStr_esc, if_neg (by decide), show escChar '"' = some '"' from rfl, iht]
    · by_cases h2 : c = '\\'
      · subst h2
        rw [show escSeq '\\' = ['\\', '\\'] from rfl]
        simp only [List.cons_append, List.nil_append]
        rw [pStr_esc, if_neg (by decide), show escChar '\\' = some '\\' from rfl, iht]
      · by_cases h3 : c = '\n'
        · subst h3
          rw [show escSeq '\n' = ['\\', 'n'] from rfl]
          simp only [List.cons_append, List.nil_append]
          rw [pStr_esc, if_neg (by decide), show escChar 'n' = some '\n' from rfl, iht]
        · by_cases h4 : c = '\x0d'
          · subst h4
            rw [show escSeq '\x0d' = ['\\', 'r'] from rfl]
            simp only [List.cons_append, List.nil_append]
            rw [pStr_esc, if_neg (by decide), show escChar 'r' = some '\x0d' from rfl, iht]
          · by_cases h5 : c = '\t'
            · subst h5
              rw [show escSeq '\t' = ['\\', 't'] from rfl]
              simp only [List.cons_append, List.nil_append]
              rw [pStr_esc, if_neg (by decide), show escChar 't' = some '\t' from rfl, iht]
            · have hesc : escSeq c = [c] := by
                simp [escSeq, h1, h2, h3, h4, h5]
              rw [hesc]
              have hge : ¬ c.toNat < 0x20 := by
                simp only [goodChar, Bool.or_eq_true, decide_eq_true_eq] at hc
                rcases hc with ((hc | hc) | hc) | hc
                · omega
                · exact absurd hc h3
                · exact absurd hc h4
                · exact absurd hc h5
              simp only [List.cons_append, List.nil_append]
              rw [pStr_plain c _ h1 h2 hge, iht]

/-- One-step equation of the retry loop (for unfolding at numeral fuels). -/
theorem retryLoop_succ (llm : List Msg → String → String) (system : String)
    (fuel attempt : Nat) (msgs : List Msg) :
    retryLoop llm system (fuel + 1) attempt msgs =
      match validateAction (llm msgs system) with
      | (some d, cleaned) => (some (d, cleaned), msgs, 1)
      | (none, _) =>
        let msgs' :=
          if attempt < MAX_RETRIES - 1 then
            msgs ++ [⟨"assistant", llm msgs system⟩, ⟨"user", invalidFormatMsg⟩]
          else msgs
        let r := retryLoop llm system fuel (attempt + 1) msgs'
        (r.1, r.2.1, r.2.2 + 1) := rfl

/-- One-step equation of the turn loop (for unfolding at numeral fuels). -/
theorem turnLoop_succ (llm : List Msg → String → String) (system : String) (co : Collab)
    (fuel : Nat) (msgs : List Msg) :
    turnLoop llm system co (fuel + 1) msgs =
      match retryLoop llm system MAX_RETRIES 0 msgs with
      | (none, _, calls) =>
          ⟨.ok "Error: Agent failed to produce valid JSON after multiple attempts.", [calls], []⟩
      | (some (action, cleaned), msgs1, calls) =>
        match action.get "action" with
        | none => ⟨.error (.keyError "action"), [calls], []⟩
        | some atype =>
          if atype = .str "answer" then
            match action.get "text" with
            | some (.str t) => ⟨.ok t, [calls], []⟩
            | some v => ⟨.ok (renderString v), [calls], []⟩
            | none => ⟨.error (.keyError "text"), [calls], []⟩
          else
            match executeAction co action with
            | .error e => ⟨.error e, [calls], [action]⟩
            | .ok (result, _isError) =>
              let msgs2 := msgs1 ++ [⟨"assistant", cleaned⟩, ⟨"user", "Tool result:\n" ++ result⟩]
              let r := turnLoop llm system co fuel msgs2
              ⟨r.outcome, calls :: r.perTurnCalls, action :: r.dispatched⟩ := rfl

/-! ## Equation lemmas for the parser and renderer -/

theorem pVal_succ (fuel : Nat) (cs : List Char) :
    pVal (fuel + 1) cs =
      match cs.dropWhile jsonWs with
      | [] => none
      | c :: rest =>
        if c = '{' then
          match rest.dropWhile jsonWs with
          | '}' :: r => some (.obj .nil, r)
          | _ => pMembers fuel rest .nil
        else if c = '[' then
          match rest.dropWhile jsonWs with
          | ']' :: r => some (.arr .nil, r)
          | _ => pElems fuel rest
        else if c = '"' then
          match pStr rest with
          | some (s, r) => some (.str ⟨s⟩, r)
          | none => none
        else if c = 't' then
          match rest with
          | 'r' :: 'u' :: 'e' :: r => some (.bool true, r)
          | _ => none
        else if c = 'f' then
          match rest with
          | 'a' :: 'l' :: 's' :: 'e' :: r => some (.bool false, r)
          | _ => none
        else if c = 'n' then
          match rest with
          | 'u' :: 'l' :: 'l' :: r => some (.null, r)
          | _ => none
        else
          match pInt (c :: rest) with
          | some (n, r) => some (.int n, r)
          | none => none := rfl

theorem pMembers_succ (fuel : Nat) (cs : List Char) (acc : JsonObj) :
    pMembers (fuel + 1) cs acc =
      match cs.dropWhile jsonWs with
      | '"' :: rest =>
        match pStr rest with
        | some (k, r1) =>
          match r1.dropWhile jsonWs with
          | ':' :: r2 =>
            match pVal fuel r2 with
            | some (v, r3) =>
              match r3.dropWhile jsonWs with
              | ',' :: r4 => pMembers fuel r4 (acc.set ⟨k⟩ v)
              | '}' :: r4 => some (.obj (acc.set ⟨k⟩ v), r4)
              | _ => none
            | none => none
          | _ => none
        | none => none
      | _ => none := rfl

theorem pElems_succ (fuel : Nat) (cs : List Char) :
    pElems (fuel + 1) cs =
      match pVal fuel cs with
      | some (v, r1) =>
        match r1.dropWhile jsonWs with
        | ',' :: r2 =>
          match pElems fuel r2 with
          | some (.arr xs, r3) => some (.arr (.cons v xs), r3)
          | _ => none
        | ']' :: r2 => some (.arr (.cons v .nil), r2)
        | _ => none
      | none => none := rfl

theorem dropWhile_cons_not {c : Char} {t : List Char} (h : jsonWs c = false) :
    (c :: t).dropWhile jsonWs = c :: t := by
  simp [List.dropWhile_cons, h]

theorem pVal_cons (fuel : Nat) (c : Char) (t : List Char) (hws : jsonWs c = false) :
    pVal (fuel + 1) (c :: t) =
      if c = '{' then
        match t.dropWhile jsonWs with
        | '}' :: r => some (.obj .nil, r)
        | _ => pMembers fuel t .nil
      else if c = '[' then
        match t.dropWhile jsonWs with
        | ']' :: r => some (.arr .nil, r)
        | _ => pElems fuel t
      else if c = '"' then
        match pStr t with
        | some (s, r) => some (.str ⟨s⟩, r)
        | none => none
      else if c = 't' then
        match t with
        | 'r' :: 'u' :: 'e' :: r => some (.bool true, r)
        | _ => none
      else if c = 'f' then
        match t with
        | 'a' :: 'l' :: 's' :: 'e' :: r => some (.bool false, r)
        | _ => none
      else if c = 'n' then
        match t with
        | 'u' :: 'l' :: 'l' :: r => some (.null, r)
        | _ => none
      else
        match pInt (c :: t) with
        | some (n, r) => some (.int n, r)
        | none => none := by
  rw [pVal_succ, dropWhile_cons_not hws]

theorem pMembers_quote (fuel : Nat) (t : List Char) (acc : JsonObj) :
    pMembers (fuel + 1) ('"' :: t) acc =
      match pStr t with
      | some (k, r1) =>
        match r1.dropWhile jsonWs with
        | ':' :: r2 =>
          match pVal fuel r2 with
          | some (v, r3) =>
            match r3.dropWhile jsonWs with
            | ',' :: r4 => pMembers fuel r4 (acc.set ⟨k⟩ v)
            | '}' :: r4 => some (.obj (acc.set ⟨k⟩ v), r4)
            | _ => none
          | none => none
        | _ => none
      | none => none := by
  rw [pMembers_succ, dropWhile_cons_not (by decide)]
  rfl

theorem render_str (s : String) :
    render (.str s) = '"' :: ((s.data.map escSeq).flatten ++ ['"']) := rfl

theorem render_int (n : Int) : render (.int n) = renderInt n := rfl

theorem render_arr (xs : JsonArr) : render (.arr xs) = '[' :: (renderArr xs ++ [']']) := rfl

theorem render_obj (kvs : JsonObj) : render (.obj kvs) = '{' :: (renderObj kvs ++ ['}']) := rfl

theorem renderArr_one (v : Json) : renderArr (.cons v .nil) = render v := rfl

theorem renderArr_two (v w : Json) (tl : JsonArr) :
    renderArr (.cons v (.cons w tl)) = render v ++ ',' :: renderArr (.cons w tl) := rfl

theorem renderObj_one (k : String) (v : Json) :
    renderObj (.cons k v .nil) = '"' :: ((k.data.map escSeq).flatten ++ '"' :: ':' :: render v) := rfl

theorem renderObj_two (k : String) (v : Json) (k2 : String) (v2 : Json) (tl : JsonObj) :
    renderObj (.cons k v (.cons k2 v2 tl)) =
      '"' :: ((k.data.map escSeq).flatten ++ '"' :: ':' :: render v) ++
        ',' :: renderObj (.cons k2 v2 tl) := rfl

/-! ## Head-character facts about rendered values -/

theorem isDigit_not_jsonWs {c : Char} (h : c.isDigit = true) : jsonWs c = false := by
  simp only [jsonWs, Bool.or_eq_false_iff, decide_eq_false_iff_not]
  refine ⟨⟨⟨?_, ?_⟩, ?_⟩, ?_⟩ <;> (intro heq; subst heq; exact absurd h (by decide))

theorem renderInt_ne_nil (n : Int) : renderInt n ≠ [] := by
  unfold renderInt
  split
  · simp
  · exact natToDigits_ne_nil _

theorem renderInt_head {n : Int} {c : Char} {t : List Char} (h : renderInt n = c :: t) :
    c.isDigit = true ∨ c = '-' := by
  unfold renderInt at h
  split at h
  · exact Or.inr (List.cons.inj h).1.symm
  · exact Or.inl (natToDigits_all_digits _ c (by rw [h]; exact List.mem_cons_self _ _))

theorem not_special_of_digit_or_minus {c : Char} (h : c.isDigit = true ∨ c = '-') :
    ¬c = '{' ∧ ¬c = '[' ∧ ¬c = '"' ∧ ¬c = 't' ∧ ¬c = 'f' ∧ ¬c = 'n' := by
  rcases h with h | rfl
  · refine ⟨?_, ?_, ?_, ?_, ?_, ?_⟩ <;> (intro heq; subst heq; exact absurd h (by decide))
  · exact ⟨by decide, by decide, by decide, by decide, by decide, by decide⟩

/-- Every rendered value starts with a non-whitespace character that is not
a closing delimiter. -/
theorem render_cons (v : Json) :
    ∃ c t, render v = c :: t ∧ jsonWs c = false ∧ ¬c = ']' ∧ ¬c = '}' := by
  cases v with
  | str s => exact ⟨'"', _, render_str s, by decide, by decide, by decide⟩
  | int n =>
    rcases hri : renderInt n with _ | ⟨c, t⟩
    · exact absurd hri (renderInt_ne_nil n)
    · have hh := renderInt_head hri
      refine ⟨c, t, by rw [render_int, hri], ?_, ?_, ?_⟩
      · rcases hh with h | rfl
        · exact isDigit_not_jsonWs h
        · decide
      · rcases hh with h | rfl
        · intro heq; subst heq; exact absurd h (by decide)
        · decide
      · rcases hh with h | rfl
        · intro heq; subst heq; exact absurd h (by decide)
        · decide
  | bool b =>
    cases b
    · exact ⟨'f', _, rfl, by decide, by decide, by decide⟩
    · exact ⟨'t', _, rfl, by decide, by decide, by decide⟩
  | null => exact ⟨'n', _, rfl, by decide, by decide, by decide⟩
  | arr xs => exact ⟨'[', _, render_arr xs, by decide, by decide, by decide⟩
  | obj kvs => exact ⟨'{', _, render_obj kvs, by decide, by decide, by decide⟩

theorem dropWhile_render (v : Json) (rest : List Char) :
    (render v ++ rest).dropWhile jsonWs = render v ++ rest := by
  obtain ⟨c, t, hv, hc, -, -⟩ := render_cons v
  rw [hv, List.cons_append, dropWhile_cons_not hc]

/-! ## Object-accumulator lemmas -/

theorem JsonObj.append_nil_left (b : JsonObj) : JsonObj.nil.append b = b := rfl

theorem JsonObj.set_eq_append : ∀ (acc : JsonObj) (k : String) (v : Json),
    acc.hasKey k = false → acc.set k v = acc.append (.cons k v .nil)
  | .nil, _, _, _ => rfl
  | .cons k2 v2 tl, k, v, h => by
    simp only [JsonObj.hasKey, Bool.or_eq_false_iff, decide_eq_false_iff_not] at h
    simp only [JsonObj.set, JsonObj.append, if_neg h.1]
    rw [JsonObj.set_eq_append tl k v h.2]

theorem JsonObj.append_cons : ∀ (acc : JsonObj) (k : String) (v : Json) (tl : JsonObj),
    (acc.append (.cons k v .nil)).append tl = acc.append (.cons k v tl)
  | .nil, _, _, _ => rfl
  | .cons k2 v2 tl2, k, v, tl => by
    simp only [JsonObj.append]
    rw [JsonObj.append_cons tl2 k v tl]

theorem JsonObj.hasKey_append : ∀ (a b : JsonObj) (k : String),
    (a.append b).hasKey k = (a.hasKey k || b.hasKey k)
  | .nil, _, _ => rfl
  | .cons k2 v2 tl, b, k => by
    simp only [JsonObj.append, JsonObj.hasKey, JsonObj.hasKey_append tl b k, Bool.or_assoc]

/-! ## Convenience facts about the measures -/

theorem needV_pos (v : Json) : 1 ≤ needV v := by
  cases v <;> simp [needV]

theorem needV_obj (kvs : JsonObj) : needV (.obj kvs) = 1 + needM kvs := rfl

theorem needV_arr (xs : JsonArr) : needV (.arr xs) = 1 + needE xs := rfl

theorem needM_cons (k : String) (v : Json) (tl : JsonObj) :
    needM (.cons k v tl) = 1 + max (needV v) (needM tl) := rfl

theorem needE_cons (v : Json) (tl : JsonArr) :
    needE (.cons v tl) = 1 + max (needV v) (needE tl) := rfl

theorem goodJson_str (s : String) : goodJson (.str s) = goodChars s.data := rfl

theorem goodJson_obj (kvs : JsonObj) : goodJson (.obj kvs) = goodObj kvs := rfl

theorem goodJson_arr (xs : JsonArr) : goodJson (.arr xs) = goodArr xs := rfl

theorem goodObj_cons (k : String) (v : Json) (tl : JsonObj) :
    goodObj (.cons k v tl) = (goodChars k.data && !(tl.hasKey k) && goodJson v && goodObj tl) := rfl

theorem goodArr_cons (v : Json) (tl : JsonArr) :
    goodArr (.cons v tl) = (goodJson v && goodArr tl) := rfl

theorem renderArr_cons_form (v : Json) (tl : JsonArr) :
    ∃ t2, renderArr (.cons v tl) = render v ++ t2 := by
  cases tl with
  | nil => exact ⟨[], by rw [renderArr_one, List.append_nil]⟩
  | cons w tl2 => exact ⟨_, renderArr_two v w tl2⟩

theorem renderObj_cons_form (k : String) (v : Json) (tl : JsonObj) :
    ∃ t2, renderObj (.cons k v tl) = '"' :: t2 := by
  cases tl with
  | nil => exact ⟨_, renderObj_one k v⟩
  | cons k2 v2 tl2 => exact ⟨_, by rw [renderObj_two, List.cons_append]⟩

theorem numSafe_int (n : Int) (rest : List Char) :
    numSafe (.int n) rest = numDelim rest := rfl

theorem numSafe_close (v : Json) (c : Char) (r : List Char)
    (h : c = '}' ∨ c = ',' ∨ c = ']') : numSafe v (c :: r) = true := by
  rcases h with rfl | rfl | rfl <;> cases v <;> rfl

/-! ## The render/parse round trip -/

mutual

/-- The embedded `json.loads` value parser inverts the renderer. -/
theorem pVal_render : ∀ (v : Json) (fuel : Nat) (rest : List Char), needV v ≤ fuel →
    goodJson v = true → numSafe v rest = true →
    pVal fuel (render v ++ rest) = some (v, rest)
  | v, 0, _, hf, _, _ => absurd hf (by have := needV_pos v; omega)
  | .str s, fuel + 1, rest, _, hg, _ => by
    rw [render_str]
    simp only [List.cons_append, List.append_assoc, List.singleton_append, List.nil_append]
    rw [pVal_cons _ _ _ (by decide), if_neg (by decide), if_neg (by decide), if_pos rfl,
      pStr_escSeq s.data rest (by simpa [goodJson_str, goodChars, List.all_eq_true] using hg)]
  | .int n, fuel + 1, rest, _, _, hs => by
    have hD : numDelim rest = true := hs
    rcases hri : renderInt n with _ | ⟨c, t⟩
    · exact absurd hri (renderInt_ne_nil n)
    · have hh := renderInt_head hri
      obtain ⟨hn1, hn2, hn3, hn4, hn5, hn6⟩ := not_special_of_digit_or_minus hh
      have hws : jsonWs c = false := by
        rcases hh with h | rfl
        · exact isDigit_not_jsonWs h
        · decide
      rw [render_int, hri, List.cons_append, pVal_cons _ _ _ hws, if_neg hn1, if_neg hn2,
        if_neg hn3, if_neg hn4, if_neg hn5, if_neg hn6, ← List.cons_append, ← hri,
        pInt_renderInt n rest hD]
  | .bool true, fuel + 1, rest, _, _, _ => by
    rw [show render (.bool true) = 't' :: 'r' :: 'u' :: 'e' :: [] from rfl]
    simp only [List.cons_append, List.nil_append]
    rw [pVal_cons _ _ _ (by decide), if_neg (by decide), if_neg (by decide), if_neg (by decide),
      if_pos rfl]
    rfl
  | .bool false, fuel + 1, rest, _, _, _ => by
    rw [show render (.bool false) = 'f' :: 'a' :: 'l' :: 's' :: 'e' :: [] from rfl]
    simp only [List.cons_append, List.nil_append]
    rw [pVal_cons _ _ _ (by decide), if_neg (by decide), if_neg (by decide), if_neg (by decide),
      if_neg (by decide), if_pos rfl]
    rfl
  | .null, fuel + 1, rest, _, _, _ => by
    rw [show render .null = 'n' :: 'u' :: 'l' :: 'l' :: [] from rfl]
    simp only [List.cons_append, List.nil_append]
    rw [pVal_cons _ _ _ (by decide), if_neg (by decide), if_neg (by decide), if_neg (by decide),
      if_neg (by decide), if_neg (by decide), if_pos rfl]
    rfl
  | .arr xs, fuel + 1, rest, hf, hg, _ => by
    rw [render_arr, List.cons_append, pVal_cons _ _ _ (by decide), if_neg (by decide), if_pos rfl]
    simp only [List.append_assoc, List.singleton_append]
    cases xs with
    | nil =>
      rw [show renderArr .nil = ([] : List Char) from rfl, List.nil_append,
        dropWhile_cons_not (show jsonWs ']' = false by decide)]
      rfl
    | cons v tl =>
      rw [needV_arr] at hf
      rw [goodJson_arr] at hg
      obtain ⟨c0, t0, hv0, hws0, hne1, hne2⟩ := render_cons v
      obtain ⟨t2, ha⟩ := renderArr_cons_form v tl
      split
      · next r heq =>
        rw [ha, hv0, List.cons_append, List.cons_append,
          dropWhile_cons_not hws0] at heq
        exact absurd (List.cons.inj heq).1 hne1
      · next hno =>
        rw [pElems_render (.cons v tl) (by simp) fuel rest
          (by omega) hg]
  | .obj kvs, fuel + 1, rest, hf, hg, _ => by
    rw [render_obj, List.cons_append, pVal_cons _ _ _ (by decide), if_pos rfl]
    simp only [List.append_assoc, List.singleton_append]
    cases kvs with
    | nil =>
      rw [show renderObj .nil = ([] : List Char) from rfl, List.nil_append,
        dropWhile_cons_not (show jsonWs '}' = false by decide)]
      rfl
    | cons k v tl =>
      rw [needV_obj] at hf
      rw [goodJson_obj] at hg
      obtain ⟨t2, ho⟩ := renderObj_cons_form k v tl
      split
      · next r heq =>
        rw [ho, List.cons_append, dropWhile_cons_not (show jsonWs '"' = false by decide)] at heq
        exact absurd (List.cons.inj heq).1 (by decide)
      · next hno =>
        rw [pMembers_render (.cons k v tl) (by simp) fuel rest .nil
          (by omega) hg (fun _ _ => rfl)]
        rfl

/-- The element parser inverts the array-body renderer. -/
theorem pElems_render : ∀ (xs : JsonArr), xs ≠ .nil → ∀ (fuel : Nat) (rest : List Char),
    needE xs ≤ fuel → goodArr xs = true →
    pElems fuel (renderArr xs ++ ']' :: rest) = some (.arr xs, rest)
  | .nil, hne, _, _, _, _ => absurd rfl hne
  | .cons v tl, _, 0, rest, hf, _ => by rw [needE_cons] at hf; omega
  | .cons v tl, _, fuel + 1, rest, hf, hg => by
    rw [needE_cons] at hf
    rw [goodArr_cons] at hg
    simp only [Bool.and_eq_true] at hg
    obtain ⟨hv, htl⟩ := hg
    rw [pElems_succ]
    cases tl with
    | nil =>
      rw [renderArr_one,
        pVal_render v fuel (']' :: rest) (by omega) hv
          (numSafe_close v ']' rest (Or.inr (Or.inr rfl)))]
      simp only [dropWhile_cons_not (show jsonWs ']' = false by decide)]
    | cons w tl2 =>
      rw [renderArr_two]
      simp only [List.append_assoc, List.cons_append]
      rw [pVal_render v fuel _ (by omega) hv
          (numSafe_close v ',' _ (Or.inr (Or.inl rfl)))]
      simp only [dropWhile_cons_not (show jsonWs ',' = false by decide)]
      rw [pElems_render (.cons w tl2) (by simp) fuel rest (by omega) htl]

/-- The member parser inverts the object-body renderer, extending the
accumulator dict exactly as CPython's decoder does. -/
theorem pMembers_render : ∀ (kvs : JsonObj), kvs ≠ .nil →
    ∀ (fuel : Nat) (rest : List Char) (acc : JsonObj), needM kvs ≤ fuel →
    goodObj kvs = true → keysDisjoint acc kvs →
    pMembers fuel (renderObj kvs ++ '}' :: rest) acc = some (.obj (acc.append kvs), rest)
  | .nil, hne, _, _, _, _, _, _ => absurd rfl hne
  | .cons k v tl, _, 0, rest, acc, hf, _, _ => by rw [needM_cons] at hf; omega
  | .cons k v tl, _, fuel + 1, rest, acc, hf, hg, hdisj => by
    rw [needM_cons] at hf
    rw [goodObj_cons] at hg
    simp only [Bool.and_eq_true, Bool.not_eq_true'] at hg
    obtain ⟨⟨⟨hk, hknotin⟩, hv⟩, htl⟩ := hg
    have hkchars : ∀ c ∈ k.data, goodChar c = true := by
      simpa [goodChars, List.all_eq_true] using hk
    have hacck : acc.hasKey k = false := hdisj k (by simp [JsonObj.hasKey])
    cases tl with
    | nil =>
      rw [renderObj_one, List.cons_append, pMembers_quote]
      simp only [List.append_assoc, List.cons_append]
      rw [pStr_escSeq k.data _ hkchars]
      simp only [dropWhile_cons_not (show jsonWs ':' = false by decide)]
      rw [pVal_render v fuel ('}' :: rest) (by omega) hv
          (numSafe_close v '}' rest (Or.inl rfl))]
      simp only [dropWhile_cons_not (show jsonWs '}' = false by decide),
        show (⟨k.data⟩ : String) = k from rfl,
        JsonObj.set_eq_append acc k v hacck]
    | cons k2 v2 tl2 =>
      rw [renderObj_two, List.cons_append, List.cons_append, pMembers_quote]
      simp only [List.append_assoc, List.cons_append]
      rw [pStr_escSeq k.data _ hkchars]
      simp only [dropWhile_cons_not (show jsonWs ':' = false by decide)]
      rw [pVal_render v fuel _ (by omega) hv
          (numSafe_close v ',' _ (Or.inr (Or.inl rfl)))]
      simp only [dropWhile_cons_not (show jsonWs ',' = false by decide),
        show (⟨k.data⟩ : String) = k from rfl,
        JsonObj.set_eq_append acc k v hacck]
      have hdisj2 : keysDisjoint (acc.append (.cons k v .nil)) (.cons k2 v2 tl2) := by
        intro key hkey
        rw [JsonObj.hasKey_append]
        have h1 : acc.hasKey key = false := by
          apply hdisj key
          simp only [JsonObj.hasKey, Bool.or_eq_true] at hkey ⊢
          exact Or.inr hkey
        have h2 : (JsonObj.cons k v .nil).hasKey key = false := by
          simp only [JsonObj.hasKey, Bool.or_false, decide_eq_false_iff_not]
          intro heq
          subst heq
          rw [hkey] at hknotin
          exact Bool.noConfusion hknotin
        simp [h1, h2]
      rw [pMembers_render (.cons k2 v2 tl2) (by simp) fuel rest
          (acc.append (.cons k v .nil)) (by omega) htl hdisj2,
        JsonObj.append_cons]

end

/-! ## Full-text parses of rendered values -/

theorem render_length_pos (v : Json) : 1 ≤ (render v).length := by
  obtain ⟨c, t, hv, -, -, -⟩ := render_cons v
  rw [hv]
  simp

mutual

theorem needV_le : ∀ (v : Json), needV v ≤ (render v).length
  | .str s => by rw [render_str]; simp [needV]
  | .int n => by
    rw [render_int]
    have := renderInt_ne_nil n
    have : 1 ≤ (renderInt n).length := by
      rcases h : renderInt n with _ | ⟨c, t⟩
      · exact absurd h this
      · simp
    simpa [needV] using this
  | .bool true => by rw [show render (.bool true) = ['t', 'r', 'u', 'e'] from rfl]; simp [needV]
  | .bool false => by
    rw [show render (.bool false) = ['f', 'a', 'l', 's', 'e'] from rfl]; simp [needV]
  | .null => by rw [show render .null = ['n', 'u', 'l', 'l'] from rfl]; simp [needV]
  | .arr xs => by
    rw [render_arr, needV_arr]
    have := needE_le xs
    simp only [List.length_cons, List.length_append, List.length_singleton]
    omega
  | .obj kvs => by
    rw [render_obj, needV_obj]
    have := needM_le kvs
    simp only [List.length_cons, List.length_append, List.length_singleton]
    omega

theorem needE_le : ∀ (xs : JsonArr), needE xs ≤ (renderArr xs).length + 1
  | .nil => by simp [needE]
  | .cons v .nil => by
    rw [renderArr_one, needE_cons]
    have h1 := needV_le v
    have h2 := render_length_pos v
    simp only [needE]
    omega
  | .cons v (.cons w tl) => by
    rw [renderArr_two, needE_cons]
    have h1 := needV_le v
    have h2 := render_length_pos v
    have h3 := needE_le (.cons w tl)
    simp only [List.length_append, List.length_cons]
    omega

theorem needM_le : ∀ (kvs : JsonObj), needM kvs ≤ (renderObj kvs).length + 1
  | .nil => by simp [needM]
  | .cons k v .nil => by
    rw [renderObj_one, needM_cons]
    have h1 := needV_le v
    simp only [needM, List.length_cons, List.length_append]
    omega
  | .cons k v (.cons k2 v2 tl) => by
    rw [renderObj_two, needM_cons]
    have h1 := needV_le v
    have h3 := needM_le (.cons k2 v2 tl)
    simp only [List.length_append, List.length_cons]
    omega

end

theorem numSafe_nil (v : Json) : numSafe v [] = true := by cases v <;> rfl

/-- `json.loads` of a rendered value with a tail succeeds iff the tail is
whitespace. -/
theorem jsonLoads_render_rest (v : Json) (rest : List Char) (hg : goodJson v = true)
    (hs : numSafe v rest = true) :
    jsonLoads (render v ++ rest) =
      if rest.dropWhile jsonWs = [] then some v else none := by
  unfold jsonLoads
  rw [pVal_render v ((render v ++ rest).length + 1) rest
    (by have := needV_le v; simp only [List.length_append]; omega) hg hs]

/-- `json.loads` of a rendered value succeeds. -/
theorem jsonLoads_render (v : Json) (hg : goodJson v = true) :
    jsonLoads (render v) = some v := by
  have := jsonLoads_render_rest v [] hg (numSafe_nil v)
  simpa using this

/-! ## Stepping lemmas for the `_fix_json_newlines` scan -/

theorem fixGo_nil (inStr : Bool) : fixGo inStr [] = [] := rfl

theorem fixGo_false_step {c : Char} (rest : List Char) (h : ¬c = '"') :
    fixGo false (c :: rest) = c :: fixGo false rest := by
  rw [fixGo.eq_def]; simp [h]

theorem fixGo_false_quote (rest : List Char) :
    fixGo false ('"' :: rest) = '"' :: fixGo true rest := by
  rw [fixGo.eq_def]; simp

theorem fixGo_true_pair (d : Char) (rest : List Char) :
    fixGo true ('\\' :: d :: rest) = '\\' :: d :: fixGo true rest := by
  rw [fixGo.eq_def]; simp

theorem fixGo_true_quote (rest : List Char) :
    fixGo true ('"' :: rest) = '"' :: fixGo false rest := by
  rw [fixGo.eq_def]; simp

theorem fixGo_true_nl (rest : List Char) :
    fixGo true ('\n' :: rest) = '\\' :: 'n' :: fixGo true rest := by
  rw [fixGo.eq_def]; simp

theorem fixGo_true_cr (rest : List Char) :
    fixGo true ('\x0d' :: rest) = '\\' :: 'r' :: fixGo true rest := by
  rw [fixGo.eq_def]; simp

theorem fixGo_true_tab (rest : List Char) :
    fixGo true ('\t' :: rest) = '\\' :: 't' :: fixGo true rest := by
  rw [fixGo.eq_def]; simp

theorem fixGo_true_plain {c : Char} (rest : List Char) (h1 : ¬c = '\\') (h2 : ¬c = '"')
    (h3 : ¬c = '\n') (h4 : ¬c = '\x0d') (h5 : ¬c = '\t') :
    fixGo true (c :: rest) = c :: fixGo true rest := by
  rw [fixGo.eq_def]; simp [h1, h2, h3, h4, h5]

/-- Outside a string the scan copies every non-quote character unchanged. -/
theorem fixGo_false_no_quote : ∀ (l t : List Char), (∀ c ∈ l, ¬c = '"') →
    fixGo false (l ++ t) = l ++ fixGo false t
  | [], _, _ => rfl
  | c :: l, t, h => by
    rw [List.cons_append, fixGo_false_step _ (h c (List.mem_cons_self c l)),
      fixGo_false_no_quote l t (fun d hd => h d (List.mem_cons_of_mem c hd))]
    rfl

/-- The scan passes through a properly escaped string body unchanged and
leaves the string state at the closing quote. -/
theorem fixGo_str_body : ∀ (s t : List Char),
    fixGo true ((s.map escSeq).flatten ++ '"' :: t) =
      (s.map escSeq).flatten ++ '"' :: fixGo false t
  | [], t => by simp [fixGo_true_quote]
  | c :: s, t => by
    simp only [List.map_cons, List.flatten_cons, List.append_assoc]
    by_cases h1 : c = '"'
    · subst h1
      rw [show escSeq '"' = ['\\', '"'] from rfl]
      simp only [List.cons_append, List.nil_append]
      rw [fixGo_true_pair, fixGo_str_body s t]
    · by_cases h2 : c = '\\'
      · subst h2
        rw [show escSeq '\\' = ['\\', '\\'] from rfl]
        simp only [List.cons_append, List.nil_append]
        rw [fixGo_true_pair, fixGo_str_body s t]
      · by_cases h3 : c = '\n'
        · subst h3
          rw [show escSeq '\n' = ['\\', 'n'] from rfl]
          simp only [List.cons_append, List.nil_append]
          rw [fixGo_true_pair, fixGo_str_body s t]
        · by_cases h4 : c = '\x0d'
          · subst h4
            rw [show escSeq '\x0d' = ['\\', 'r'] from rfl]
            simp only [List.cons_append, List.nil_append]
            rw [fixGo_true_pair, fixGo_str_body s t]
          · by_cases h5 : c = '\t'
            · subst h5
              rw [show escSeq '\t' = ['\\', 't'] from rfl]
              simp only [List.cons_append, List.nil_append]
              rw [fixGo_true_pair, fixGo_str_body s t]
            · have he : escSeq c = [c] := by simp [escSeq, h1, h2, h3, h4, h5]
              rw [he]
              simp only [List.cons_append, List.nil_append]
              rw [fixGo_true_plain _ h2 h1 h3 h4 h5, fixGo_str_body s t]

/-- The scan repairs a raw string body into the properly escaped one. -/
theorem fixGo_raw_body : ∀ (s t : List Char),
    fixGo true ((s.map escRaw).flatten ++ '"' :: t) =
      (s.map escSeq).flatten ++ '"' :: fixGo false t
  | [], t => by simp [fixGo_true_quote]
  | c :: s, t => by
    simp only [List.map_cons, List.flatten_cons, List.append_assoc]
    by_cases h1 : c = '"'
    · subst h1
      rw [show escRaw '"' = ['\\', '"'] from rfl, show escSeq '"' = ['\\', '"'] from rfl]
      simp only [List.cons_append, List.nil_append]
      rw [fixGo_true_pair, fixGo_raw_body s t]
    · by_cases h2 : c = '\\'
      · subst h2
        rw [show escRaw '\\' = ['\\', '\\'] from rfl, show escSeq '\\' = ['\\', '\\'] from rfl]
        simp only [List.cons_append, List.nil_append]
        rw [fixGo_true_pair, fixGo_raw_body s t]
      · have he : escRaw c = [c] := by simp [escRaw, h1, h2]
        rw [he]
        by_cases h3 : c = '\n'
        · subst h3
          rw [show escSeq '\n' = ['\\', 'n'] from rfl]
          simp only [List.cons_append, List.nil_append]
          rw [fixGo_true_nl, fixGo_raw_body s t]
        · by_cases h4 : c = '\x0d'
          · subst h4
            rw [show escSeq '\x0d' = ['\\', 'r'] from rfl]
            simp only [List.cons_append, List.nil_append]
            rw [fixGo_true_cr, fixGo_raw_body s t]
          · by_cases h5 : c = '\t'
            · subst h5
              rw [show escSeq '\t' = ['\\', 't'] from rfl]
              simp only [List.cons_append, List.nil_append]
              rw [fixGo_true_tab, fixGo_raw_body s t]
            · have he2 : escSeq c = [c] := by simp [escSeq, h1, h2, h3, h4, h5]
              rw [he2]
              simp only [List.cons_append, List.nil_append]
              rw [fixGo_true_plain _ h2 h1 h3 h4 h5, fixGo_raw_body s t]

theorem renderInt_no_quote (n : Int) : ∀ c ∈ renderInt n, ¬c = '"' := by
  intro c hc
  unfold renderInt at hc
  split at hc
  · rcases List.mem_cons.mp hc with rfl | hc
    · decide
    · intro h; subst h; exact absurd (natToDigits_all_digits _ _ hc) (by decide)
  · intro h; subst h; exact absurd (natToDigits_all_digits _ _ hc) (by decide)

theorem renderRaw_str (s : String) :
    renderRaw (.str s) = '"' :: ((s.data.map escRaw).flatten ++ ['"']) := rfl

theorem renderRaw_int (n : Int) : renderRaw (.int n) = renderInt n := rfl

theorem renderRaw_arr (xs : JsonArr) :
    renderRaw (.arr xs) = '[' :: (renderRawArr xs ++ [']']) := rfl

theorem renderRaw_obj (kvs : JsonObj) :
    renderRaw (.obj kvs) = '{' :: (renderRawObj kvs ++ ['}']) := rfl

theorem renderRawArr_one (v : Json) : renderRawArr (.cons v .nil) = renderRaw v := rfl

theorem renderRawArr_two (v w : Json) (tl : JsonArr) :
    renderRawArr (.cons v (.cons w tl)) = renderRaw v ++ ',' :: renderRawArr (.cons w tl) := rfl

theorem renderRawObj_one (k : String) (v : Json) :
    renderRawObj (.cons k v .nil) =
      '"' :: ((k.data.map escRaw).flatten ++ '"' :: ':' :: renderRaw v) := rfl

theorem renderRawObj_two (k : String) (v : Json) (k2 : String) (v2 : Json) (tl : JsonObj) :
    renderRawObj (.cons k v (.cons k2 v2 tl)) =
      '"' :: ((k.data.map escRaw).flatten ++ '"' :: ':' :: renderRaw v) ++
        ',' :: renderRawObj (.cons k2 v2 tl) := rfl

mutual

/-- The repair pass leaves a properly escaped rendering unchanged. -/
theorem fixGo_render : ∀ (v : Json) (t : List Char),
    fixGo false (render v ++ t) = render v ++ fixGo false t
  | .str s, t => by
    rw [render_str]
    simp only [List.cons_append, List.append_assoc, List.singleton_append, List.nil_append]
    rw [fixGo_false_quote, fixGo_str_body]
  | .int n, t => by
    rw [render_int]
    exact fixGo_false_no_quote _ t (renderInt_no_quote n)
  | .bool true, t => by
    rw [show render (.bool true) = ['t', 'r', 'u', 'e'] from rfl]
    exact fixGo_false_no_quote _ t (by decide)
  | .bool false, t => by
    rw [show render (.bool false) = ['f', 'a', 'l', 's', 'e'] from rfl]
    exact fixGo_false_no_quote _ t (by decide)
  | .null, t => by
    rw [show render .null = ['n', 'u', 'l', 'l'] from rfl]
    exact fixGo_false_no_quote _ t (by decide)
  | .arr xs, t => by
    rw [render_arr]
    simp only [List.cons_append, List.append_assoc, List.singleton_append, List.nil_append]
    rw [fixGo_false_step _ (by decide), fixGo_renderArr xs (']' :: t),
      fixGo_false_step _ (by decide)]
  | .obj kvs, t => by
    rw [render_obj]
    simp only [List.cons_append, List.append_assoc, List.singleton_append, List.nil_append]
    rw [fixGo_false_step _ (by decide), fixGo_renderObj kvs ('}' :: t),
      fixGo_false_step _ (by decide)]

theorem fixGo_renderArr : ∀ (xs : JsonArr) (t : List Char),
    fixGo false (renderArr xs ++ t) = renderArr xs ++ fixGo false t
  | .nil, _ => rfl
  | .cons v .nil, t => by rw [renderArr_one]; exact fixGo_render v t
  | .cons v (.cons w tl), t => by
    rw [renderArr_two]
    simp only [List.append_assoc, List.cons_append]
    rw [fixGo_render v _, fixGo_false_step _ (by decide), fixGo_renderArr (.cons w tl) t]

theorem fixGo_renderObj : ∀ (kvs : JsonObj) (t : List Char),
    fixGo false (renderObj kvs ++ t) = renderObj kvs ++ fixGo false t
  | .nil, _ => rfl
  | .cons k v .nil, t => by
    rw [renderObj_one]
    simp only [List.cons_append, List.append_assoc]
    rw [fixGo_false_quote, fixGo_str_body, fixGo_false_step _ (by decide), fixGo_render v t]
  | .cons k v (.cons k2 v2 tl), t => by
    rw [renderObj_two]
    simp only [List.cons_append, List.append_assoc]
    rw [fixGo_false_quote, fixGo_str_body, fixGo_false_step _ (by decide), fixGo_render v _,
      fixGo_false_step _ (by decide), fixGo_renderObj (.cons k2 v2 tl) t]

end

mutual

/-- The repair pass turns a raw rendering (literal control characters inside
strings) into the properly escaped rendering. -/
theorem fixGo_renderRaw : ∀ (v : Json) (t : List Char),
    fixGo false (renderRaw v ++ t) = render v ++ fixGo false t
  | .str s, t => by
    rw [renderRaw_str, render_str]
    simp only [List.cons_append, List.append_assoc, List.singleton_append, List.nil_append]
    rw [fixGo_false_quote, fixGo_raw_body]
  | .int n, t => by
    rw [renderRaw_int, render_int]
    exact fixGo_false_no_quote _ t (renderInt_no_quote n)
  | .bool true, t => by
    rw [show renderRaw (.bool true) = ['t', 'r', 'u', 'e'] from rfl,
      show render (.bool true) = ['t', 'r', 'u', 'e'] from rfl]
    exact fixGo_false_no_quote _ t (by decide)
  | .bool false, t => by
    rw [show renderRaw (.bool false) = ['f', 'a', 'l', 's', 'e'] from rfl,
      show render (.bool false) = ['f', 'a', 'l', 's', 'e'] from rfl]
    exact fixGo_false_no_quote _ t (by decide)
  | .null, t => by
    rw [show renderRaw .null = ['n', 'u', 'l', 'l'] from rfl,
      show render .null = ['n', 'u', 'l', 'l'] from rfl]
    exact fixGo_false_no_quote _ t (by decide)
  | .arr xs, t => by
    rw [renderRaw_arr, render_arr]
    simp only [List.cons_append, List.append_assoc, List.singleton_append, List.nil_append]
    rw [fixGo_false_step _ (by decide), fixGo_renderRawArr xs (']' :: t),
      fixGo_false_step _ (by decide)]
  | .obj kvs, t => by
    rw [renderRaw_obj, render_obj]
    simp only [List.cons_append, List.append_assoc, List.singleton_append, List.nil_append]
    rw [fixGo_false_step _ (by decide), fixGo_renderRawObj kvs ('}' :: t),
      fixGo_false_step _ (by decide)]

theorem fixGo_renderRawArr : ∀ (xs : JsonArr) (t : List Char),
    fixGo false (renderRawArr xs ++ t) = renderArr xs ++ fixGo false t
  | .nil, _ => rfl
  | .cons v .nil, t => by
    rw [renderRawArr_one, renderArr_one]; exact fixGo_renderRaw v t
  | .cons v (.cons w tl), t => by
    rw [renderRawArr_two, renderArr_two]
    simp only [List.append_assoc, List.cons_append]
    rw [fixGo_renderRaw v _, fixGo_false_step _ (by decide), fixGo_renderRawArr (.cons w tl) t]

theorem fixGo_renderRawObj : ∀ (kvs : JsonObj) (t : List Char),
    fixGo false (renderRawObj kvs ++ t) = renderObj kvs ++ fixGo false t
  | .nil, _ => rfl
  | .cons k v .nil, t => by
    rw [renderRawObj_one, renderObj_one]
    simp only [List.cons_append, List.append_assoc]
    rw [fixGo_false_quote, fixGo_raw_body, fixGo_false_step _ (by decide), fixGo_renderRaw v t]
  | .cons k v (.cons k2 v2 tl), t => by
    rw [renderRawObj_two, renderObj_two]
    simp only [List.cons_append, List.append_assoc]
    rw [fixGo_false_quote, fixGo_raw_body, fixGo_false_step _ (by decide), fixGo_renderRaw v _,
      fixGo_false_step _ (by decide), fixGo_renderRawObj (.cons k2 v2 tl) t]

end

/-- The repair pass on exactly a raw rendering. -/
theorem fixGo_renderRaw_nil (v : Json) : fixGo false (renderRaw v) = render v := by
  have h := fixGo_renderRaw v []
  rw [fixGo_nil, List.append_nil, List.append_nil] at h
  exact h

/-- The repair pass on exactly a proper rendering is the identity. -/
theorem fixGo_render_nil (v : Json) : fixGo false (render v) = render v := by
  have h := fixGo_render v []
  rw [fixGo_nil, List.append_nil] at h
  exact h

/-! ## Stepping lemmas for the brace-balanced extraction scan -/

theorem scanGo_nil (d : Int) (inS esc : Bool) (i : Nat) : scanGo d inS esc i [] = none := rfl

theorem scan_esc (d : Int) (inS : Bool) (i : Nat) (c : Char) (rest : List Char) :
    scanGo d inS true i (c :: rest) = scanGo d inS false (i + 1) rest := by
  rw [scanGo.eq_def]; simp

theorem scan_top_plain {c : Char} (d : Int) (i : Nat) (rest : List Char)
    (h2 : ¬c = '"') (h3 : ¬c = '{') (h4 : ¬c = '}') :
    scanGo d false false i (c :: rest) = scanGo d false false (i + 1) rest := by
  rw [scanGo.eq_def]; simp [h2, h3, h4]

theorem scan_top_quote (d : Int) (i : Nat) (rest : List Char) :
    scanGo d false false i ('"' :: rest) = scanGo d true false (i + 1) rest := by
  rw [scanGo.eq_def]; simp

theorem scan_top_open (d : Int) (i : Nat) (rest : List Char) :
    scanGo d false false i ('{' :: rest) = scanGo (d + 1) false false (i + 1) rest := by
  rw [scanGo.eq_def]; simp

theorem scan_top_close (d : Int) (i : Nat) (rest : List Char) :
    scanGo d false false i ('}' :: rest) =
      if d - 1 = 0 then some (i + 1) else scanGo (d - 1) false false (i + 1) rest := by
  rw [scanGo.eq_def]; simp

theorem scan_str_bs (d : Int) (i : Nat) (rest : List Char) :
    scanGo d true false i ('\\' :: rest) = scanGo d true true (i + 1) rest := by
  rw [scanGo.eq_def]; simp

theorem scan_str_quote (d : Int) (i : Nat) (rest : List Char) :
    scanGo d true false i ('"' :: rest) = scanGo d false false (i + 1) rest := by
  rw [scanGo.eq_def]; simp

theorem scan_str_other {c : Char} (d : Int) (i : Nat) (rest : List Char)
    (h1 : ¬c = '\\') (h2 : ¬c = '"') :
    scanGo d true false i (c :: rest) = scanGo d true false (i + 1) rest := by
  rw [scanGo.eq_def]; simp [h1, h2]

/-- Shape of one escaped character: an escape pair, or a single harmless
character. -/
theorem escSeq_shape (c : Char) :
    (∃ x, escSeq c = ['\\', x]) ∨ (escSeq c = [c] ∧ ¬c = '\\' ∧ ¬c = '"') := by
  by_cases h1 : c = '"'
  · exact Or.inl ⟨'"', by simp [escSeq, h1]⟩
  · by_cases h2 : c = '\\'
    · exact Or.inl ⟨'\\', by simp [escSeq, h1, h2]⟩
    · by_cases h3 : c = '\n'
      · exact Or.inl ⟨'n', by simp [escSeq, h1, h2, h3]⟩
      · by_cases h4 : c = '\x0d'
        · exact Or.inl ⟨'r', by simp [escSeq, h1, h2, h3, h4]⟩
        · by_cases h5 : c = '\t'
          · exact Or.inl ⟨'t', by simp [escSeq, h1, h2, h3, h4, h5]⟩
          · exact Or.inr ⟨by simp [escSeq, h1, h2, h3, h4, h5], h2, h1⟩

/-- The scan walks through a concatenation of escape chunks without leaving
string state. -/
theorem scan_str_chunks : ∀ (L : List (List Char)) (d : Int) (i : Nat) (t : List Char),
    (∀ ch ∈ L, (∃ x, ch = ['\\', x]) ∨ (∃ c, ch = [c] ∧ ¬c = '\\' ∧ ¬c = '"')) →
    scanGo d true false i (L.flatten ++ t) = scanGo d true false (i + L.flatten.length) t
  | [], _, _, _, _ => by simp
  | ch :: L, d, i, t, h => by
    simp only [List.flatten_cons, List.append_assoc]
    rcases h ch (List.mem_cons_self ch L) with ⟨x, rfl⟩ | ⟨c, rfl, hc1, hc2⟩
    · rw [List.cons_append, List.cons_append, List.nil_append, scan_str_bs, scan_esc,
        scan_str_chunks L d (i + 1 + 1) t (fun ch2 h2 => h ch2 (List.mem_cons_of_mem _ h2))]
      congr 1
      simp only [List.length_append, List.length_cons, List.length_nil]
      omega
    · rw [List.cons_append, List.nil_append, scan_str_other d i _ hc1 hc2,
        scan_str_chunks L d (i + 1) t (fun ch2 h2 => h ch2 (List.mem_cons_of_mem _ h2))]
      congr 1
      simp only [List.length_append, List.length_cons, List.length_nil]
      omega

/-- Outside a string the scan walks through characters that are neither
quotes nor braces, at any depth, changing no state. -/
theorem scan_top_passthrough : ∀ (l : List Char) (d : Int) (i : Nat) (t : List Char),
    (∀ c ∈ l, ¬c = '"' ∧ ¬c = '{' ∧ ¬c = '}') →
    scanGo d false false i (l ++ t) = scanGo d false false (i + l.length) t
  | [], _, _, _, _ => by simp
  | c :: l, d, i, t, h => by
    obtain ⟨h2, h3, h4⟩ := h c (List.mem_cons_self c l)
    rw [List.cons_append, scan_top_plain d i _ h2 h3 h4,
      scan_top_passthrough l d (i + 1) t (fun d2 hd => h d2 (List.mem_cons_of_mem _ hd))]
    congr 1
    simp only [List.length_cons]
    omega

theorem escSeq_chunk_shapes (s : List Char) :
    ∀ ch ∈ s.map escSeq,
      (∃ x, ch = ['\\', x]) ∨ (∃ c, ch = [c] ∧ ¬c = '\\' ∧ ¬c = '"') := by
  intro ch hch
  obtain ⟨c, -, rfl⟩ := List.mem_map.mp hch
  rcases escSeq_shape c with ⟨x, he⟩ | ⟨he, hc1, hc2⟩
  · exact Or.inl ⟨x, he⟩
  · exact Or.inr ⟨c, he, hc1, hc2⟩

/-- The scan walks through a full rendered string literal. -/
theorem scan_str_full (s : List Char) (d : Int) (i : Nat) (t : List Char) :
    scanGo d false false i (('"' :: ((s.map escSeq).flatten ++ ['"'])) ++ t) =
      scanGo d false false (i + ('"' :: ((s.map escSeq).flatten ++ ['"'])).length) t := by
  rw [List.cons_append, scan_top_quote, List.append_assoc, List.singleton_append,
    scan_str_chunks (s.map escSeq) d (i + 1) ('"' :: t) (escSeq_chunk_shapes s),
    scan_str_quote]
  congr 1
  simp only [List.length_cons, List.length_append, List.length_singleton, List.length_nil]
  omega

theorem renderInt_scan_safe (n : Int) : ∀ c ∈ renderInt n, ¬c = '"' ∧ ¬c = '{' ∧ ¬c = '}' := by
  intro c hc
  unfold renderInt at hc
  have hdig : c.isDigit = true ∨ c = '-' := by
    split at hc
    · rcases List.mem_cons.mp hc with rfl | hc
      · exact Or.inr rfl
      · exact Or.inl (natToDigits_all_digits _ _ hc)
    · exact Or.inl (natToDigits_all_digits _ _ hc)
  rcases hdig with h | rfl
  · refine ⟨?_, ?_, ?_⟩ <;> (intro heq; subst heq; exact absurd h (by decide))
  · exact ⟨by decide, by decide, by decide⟩

mutual

/-- The extraction scan walks through a rendered value at depth ≥ 1 without
closing the object being extracted. -/
theorem scanGo_render : ∀ (v : Json) (d : Int) (i : Nat) (t : List Char), 1 ≤ d →
    scanGo d false false i (render v ++ t) = scanGo d false false (i + (render v).length) t
  | .str s, d, i, t, _ => by
    rw [render_str]
    exact scan_str_full s.data d i t
  | .int n, d, i, t, _ => by
    rw [render_int]
    exact scan_top_passthrough _ d i t (renderInt_scan_safe n)
  | .bool true, d, i, t, _ => by
    rw [show render (.bool true) = ['t', 'r', 'u', 'e'] from rfl]
    exact scan_top_passthrough _ d i t (by decide)
  | .bool false, d, i, t, _ => by
    rw [show render (.bool false) = ['f', 'a', 'l', 's', 'e'] from rfl]
    exact scan_top_passthrough _ d i t (by decide)
  | .null, d, i, t, _ => by
    rw [show render .null = ['n', 'u', 'l', 'l'] from rfl]
    exact scan_top_passthrough _ d i t (by decide)
  | .arr xs, d, i, t, hd => by
    rw [render_arr]
    simp only [List.cons_append, List.append_assoc, List.singleton_append, List.nil_append]
    rw [scan_top_plain d i _ (by decide) (by decide) (by decide),
      scanGo_renderArr xs d (i + 1) (']' :: t) hd,
      scan_top_plain d _ _ (by decide) (by decide) (by decide)]
    congr 1
    simp only [List.length_cons, List.length_append, List.length_singleton, List.length_nil]
    omega
  | .obj kvs, d, i, t, hd => by
    rw [render_obj]
    simp only [List.cons_append, List.append_assoc, List.singleton_append, List.nil_append]
    rw [scan_top_open, scanGo_renderObj kvs (d + 1) (i + 1) ('}' :: t) (by omega),
      scan_top_close, if_neg (by omega),
      show (d + 1 - 1 : Int) = d from by omega]
    congr 1
    simp only [List.length_cons, List.length_append, List.length_singleton, List.length_nil]
    omega

theorem scanGo_renderArr : ∀ (xs : JsonArr) (d : Int) (i : Nat) (t : List Char), 1 ≤ d →
    scanGo d false false i (renderArr xs ++ t) =
      scanGo d false false (i + (renderArr xs).length) t
  | .nil, _, _, _, _ => by
    rw [show renderArr .nil = ([] : List Char) from rfl]
    simp
  | .cons v .nil, d, i, t, hd => by
    rw [renderArr_one]
    exact scanGo_render v d i t hd
  | .cons v (.cons w tl), d, i, t, hd => by
    rw [renderArr_two]
    simp only [List.append_assoc, List.cons_append]
    rw [scanGo_render v d i _ hd,
      scan_top_plain d _ _ (by decide) (by decide) (by decide),
      scanGo_renderArr (.cons w tl) d _ t hd]
    congr 1
    simp only [List.length_append, List.length_cons]
    omega

theorem scanGo_renderObj : ∀ (kvs : JsonObj) (d : Int) (i : Nat) (t : List Char), 1 ≤ d →
    scanGo d false false i (renderObj kvs ++ t) =
      scanGo d false false (i + (renderObj kvs).length) t
  | .nil, _, _, _, _ => by
    rw [show renderObj .nil = ([] : List Char) from rfl]
    simp
  | .cons k v .nil, d, i, t, hd => by
    rw [renderObj_one]
    simp only [List.cons_append, List.append_assoc]
    rw [scan_top_quote,
      scan_str_chunks (k.data.map escSeq) d (i + 1) _ (escSeq_chunk_shapes k.data),
      scan_str_quote, scan_top_plain d _ _ (by decide) (by decide) (by decide),
      scanGo_render v d _ t hd]
    congr 1
    simp only [List.length_cons, List.length_append]
    omega
  | .cons k v (.cons k2 v2 tl), d, i, t, hd => by
    rw [renderObj_two]
    simp only [List.cons_append, List.append_assoc]
    rw [scan_top_quote,
      scan_str_chunks (k.data.map escSeq) d (i + 1) _ (escSeq_chunk_shapes k.data),
      scan_str_quote, scan_top_plain d _ _ (by decide) (by decide) (by decide),
      scanGo_render v d _ _ hd,
      scan_top_plain d _ _ (by decide) (by decide) (by decide),
      scanGo_renderObj (.cons k2 v2 tl) d _ t hd]
    congr 1
    simp only [List.length_cons, List.length_append]
    omega

end

/-- The extraction scan on a rendered top-level object finds exactly its end. -/
theorem scanGo_render_top (kvs : JsonObj) :
    scanGo 0 false false 0 (render (.obj kvs)) = some (render (.obj kvs)).length := by
  rw [render_obj, scan_top_open,
    show renderObj kvs ++ ['}'] = renderObj kvs ++ '}' :: [] from rfl,
    scanGo_renderObj kvs (0 + 1) (0 + 1) ('}' :: []) (by omega),
    scan_top_close, if_pos (by omega)]
  congr 1
  simp only [List.length_cons, List.length_append, List.length_singleton, List.length_nil]
  omega

/-! ## `validate_action` on exactly one rendered object -/

theorem pyDropWhile_cons_not {c : Char} {t : List Char} (h : pyWs c = false) :
    (c :: t).dropWhile pyWs = c :: t := by
  simp [List.dropWhile_cons, h]

theorem pyStrip_of_ends {l : List Char} {c : Char} {t : List Char} {d : Char}
    (hl : l = c :: t) (hc : pyWs c = false) (hd : l.getLast? = some d)
    (hdw : pyWs d = false) : pyStrip l = l := by
  unfold pyStrip pyStripL
  rw [hl, pyDropWhile_cons_not hc, ← hl]
  have hrev : l.reverse.head? = some d := by rw [List.head?_reverse]; exact hd
  rcases hr : l.reverse with _ | ⟨e, r⟩
  · rw [hr] at hrev; cases hrev
  · rw [hr] at hrev
    simp only [List.head?_cons, Option.some.injEq] at hrev
    subst hrev
    rw [pyDropWhile_cons_not hdw, ← hr, List.reverse_reverse]

theorem render_obj_getLast (kvs : JsonObj) :
    (render (.obj kvs)).getLast? = some '}' := by
  rw [render_obj, show ('{' :: (renderObj kvs ++ ['}'])) = (('{' :: renderObj kvs) ++ ['}'])
    from rfl, List.getLast?_concat]

theorem pyStrip_render_obj (kvs : JsonObj) :
    pyStrip (render (.obj kvs)) = render (.obj kvs) :=
  pyStrip_of_ends (render_obj kvs) (by decide) (render_obj_getLast kvs) (by decide)

theorem defence_render_obj (kvs : JsonObj) :
    defence (render (.obj kvs)) = render (.obj kvs) := by
  unfold defence
  rw [render_obj]
  rw [if_neg (by simp [listStartsWith])]

theorem findIdx_render_obj (kvs : JsonObj) :
    (render (.obj kvs)).findIdx? (· = '{') = some 0 := by
  rw [render_obj, List.findIdx?_cons]
  simp

/-- Stage 3 on exactly one rendered object: the scan extracts the whole text,
the repair pass leaves it unchanged, and the result hinges on
`_validate_fields`. -/
theorem validateStage3_render_obj (kvs : JsonObj) (hg : goodJson (.obj kvs) = true) :
    validateStage3 (render (.obj kvs)) =
      match truthy (validateFields kvs) with
      | some r => (some r, ⟨render (.obj kvs)⟩)
      | none => (none, ⟨render (.obj kvs)⟩) := by
  unfold validateStage3
  rw [findIdx_render_obj kvs]
  simp only [List.drop_zero]
  rw [scanGo_render_top kvs]
  simp only [List.take_length]
  rw [fixGo_render_nil, jsonLoads_render _ hg]

/-- Stage 2 on exactly one rendered object falls through to stage 3: the
repair pass changes nothing. -/
theorem validateStage2_render_obj (kvs : JsonObj) :
    validateStage2 (render (.obj kvs)) = validateStage3 (render (.obj kvs)) := by
  unfold validateStage2
  rw [if_neg (by simp [fixGo_render_nil])]

/-- `validate_action` on exactly one rendered object: accepted or rejected
exactly as `_validate_fields` decides, with the text returned unchanged. -/
theorem validateAction_render_obj (kvs : JsonObj) (hg : goodJson (.obj kvs) = true) :
    validateAction (renderString (.obj kvs)) =
      match truthy (validateFields kvs) with
      | some r => (some r, ⟨render (.obj kvs)⟩)
      | none => (none, ⟨render (.obj kvs)⟩) := by
  unfold validateAction renderString
  show validateStage1 (defence (pyStrip (render (.obj kvs)))) = _
  rw [pyStrip_render_obj, defence_render_obj]
  unfold validateStage1
  simp only [jsonLoads_render _ hg]
  rcases htr : truthy (validateFields kvs) with - | r
  · simp only [htr]
    rw [validateStage2_render_obj, validateStage3_render_obj kvs hg]
    simp only [htr]
  · simp only [htr]

/-- `_validate_fields` rejects a query action whose SQL does not start with
`SELECT` after trimming and upper-casing. -/
theorem validateFields_query_bad {kvs : JsonObj} {sql : String}
    (ha : kvs.get "action" = some (.str "query"))
    (hs : kvs.get "sql" = some (.str sql))
    (hbad : listStartsWith (asciiUpper (pyStrip sql.data)) "SELECT".data = false) :
    validateFields kvs = none := by
  unfold validateFields
  rw [ha]
  simp [VALID_ACTIONS, hs, hbad]

/-- If the model's responses are always rejected, every retry is consumed and
no action is produced. -/
theorem retryLoop_all_invalid (llm : List Msg → String → String) (system : String)
    (hinv : ∀ msgs, (validateAction (llm msgs system)).1 = none) :
    ∀ (fuel attempt : Nat) (msgs : List Msg),
      (retryLoop llm system fuel attempt msgs).1 = none ∧
        (retryLoop llm system fuel attempt msgs).2.2 = fuel
  | 0, _, _ => ⟨rfl, rfl⟩
  | fuel + 1, attempt, msgs => by
    rw [retryLoop_succ]
    rcases hv : validateAction (llm msgs system) with ⟨o, c⟩
    have ho : o = none := by have := hinv msgs; rw [hv] at this; exact this
    subst ho
    simp only
    have ih := retryLoop_all_invalid llm system hinv fuel (attempt + 1)
      (if attempt < MAX_RETRIES - 1 then
        msgs ++ [⟨"assistant", llm msgs system⟩, ⟨"user", invalidFormatMsg⟩]
      else msgs)
    exact ⟨ih.1, by rw [ih.2]⟩

/-- `pElems` only ever produces arrays. -/
theorem pElems_not_obj {fuel : Nat} {cs : List Char} {d : JsonObj} {rest : List Char} :
    pElems fuel cs ≠ some (.obj d, rest) := by
  intro h
  cases fuel with
  | zero => simp [pElems] at h
  | succ n =>
    unfold pElems at h
    repeat' split at h
    all_goals simp_all

/-- If the embedded `json.loads` produces an object, the first
non-whitespace character of the input is `{`. -/
theorem pVal_obj_head {fuel : Nat} {cs rest : List Char} {d : JsonObj}
    (h : pVal fuel cs = some (.obj d, rest)) :
    (cs.dropWhile jsonWs).head? = some '{' := by
  cases fuel with
  | zero => exact absurd h (by simp [pVal])
  | succ n =>
    unfold pVal at h
    split at h
    · exact absurd h (by simp)
    · rename_i c t hdw
      rw [hdw, List.head?_cons]
      repeat' split at h
      all_goals first
        | exact absurd h pElems_not_obj
        | simp_all

/-- If `json.loads` of a whole text yields an object, the first
non-whitespace character of the text is `{`. -/
theorem jsonLoads_obj_head {cs : List Char} {d : JsonObj}
    (h : jsonLoads cs = some (.obj d)) :
    (cs.dropWhile jsonWs).head? = some '{' := by
  unfold jsonLoads at h
  split at h
  · rename_i v rest hp
    split at h
    · replace h := Option.some.inj h
      subst h
      exact pVal_obj_head hp
    · exact absurd h (by simp)
  · exact absurd h (by simp)

/-! ## Splitting `strip` around an embedded object -/

theorem dropWhile_append_mid {p : Char → Bool} (a : List Char) {c : Char} {t : List Char}
    (b : List Char) (hc : p c = false) :
    (a ++ (c :: t ++ b)).dropWhile p = a.dropWhile p ++ (c :: t ++ b) := by
  induction a with
  | nil => simp [List.dropWhile_cons, hc]
  | cons x a ih =>
    by_cases hx : p x
    · simp only [List.cons_append, List.dropWhile_cons, hx, if_pos rfl, if_true]
      exact ih
    · simp [List.dropWhile_cons, hx]

theorem dropWhile_head_false {p : Char → Bool} :
    ∀ (l : List Char) {c : Char} {t : List Char}, l.dropWhile p = c :: t → p c = false
  | [], _, _, h => by cases h
  | x :: l, c, t, h => by
    rw [List.dropWhile_cons] at h
    split at h
    · exact dropWhile_head_false l h
    · next hx =>
      obtain ⟨rfl, -⟩ := List.cons.inj h
      simpa using hx

/-- `str.strip` around an inner segment with non-whitespace endpoints: the
leading strip happens entirely inside the left part and the trailing strip
entirely inside the right part. -/
theorem pyStrip_mid (p1 : List Char) {m : List Char} (p2 : List Char) {c : Char}
    {tm : List Char} (hm : m = c :: tm) (hc : pyWs c = false) {d : Char}
    (hd : m.getLast? = some d) (hdw : pyWs d = false) :
    pyStrip (p1 ++ m ++ p2) =
      p1.dropWhile pyWs ++ m ++ (p2.reverse.dropWhile pyWs).reverse := by
  subst hm
  unfold pyStrip pyStripL
  rw [List.append_assoc, dropWhile_append_mid p1 p2 hc]
  rcases hrm : (c :: tm).reverse with _ | ⟨e, rm⟩
  · exact absurd (congrArg List.length hrm) (by simp)
  · have hed : e = d := by
      have := List.head?_reverse (c :: tm)
      rw [hrm, hd] at this
      simpa using this
    subst hed
    rw [show p1.dropWhile pyWs ++ (c :: tm ++ p2) =
        p1.dropWhile pyWs ++ (c :: tm) ++ p2 from by rw [List.append_assoc],
      List.reverse_append, List.reverse_append, hrm, List.append_assoc,
      dropWhile_append_mid p2.reverse (p1.dropWhile pyWs).reverse hdw]
    rw [List.reverse_append, List.reverse_append, List.reverse_reverse, ← hrm,
      List.reverse_reverse, List.append_assoc]

theorem pyWs_false_jsonWs {c : Char} (h : pyWs c = false) : jsonWs c = false := by
  simp only [pyWs, Bool.or_eq_false_iff, decide_eq_false_iff_not] at h
  simp only [jsonWs, Bool.or_eq_false_iff, decide_eq_false_iff_not]
  exact h.1.1

/-! ## The repair scan never erases a non-whitespace character -/

theorem fixGo_quote (st : Bool) (rest : List Char) :
    fixGo st ('"' :: rest) = '"' :: fixGo (!st) rest := by
  cases st
  · exact fixGo_false_quote rest
  · exact fixGo_true_quote rest

theorem fixGo_true_bs_nil : fixGo true ['\\'] = ['\\'] := by
  rw [fixGo.eq_def]
  simp
  rfl

/-- Every non-whitespace character of the input survives the repair pass. -/
theorem fixGo_mem_nonws : ∀ (st : Bool) (l : List Char) {c : Char}, c ∈ l →
    jsonWs c = false → c ∈ fixGo st l
  | _, [], _, hc, _ => absurd hc (List.not_mem_nil _)
  | st, x :: rest, c, hc, hw => by
    by_cases h2 : x = '"'
    · subst h2
      rw [fixGo_quote]
      rcases List.mem_cons.mp hc with rfl | hc
      · exact List.mem_cons_self _ _
      · exact List.mem_cons_of_mem _ (fixGo_mem_nonws (!st) rest hc hw)
    · cases st with
      | false =>
        rw [fixGo_false_step rest h2]
        rcases List.mem_cons.mp hc with rfl | hc
        · exact List.mem_cons_self _ _
        · exact List.mem_cons_of_mem _ (fixGo_mem_nonws false rest hc hw)
      | true =>
        by_cases h1 : x = '\\'
        · subst h1
          rcases hr : rest with _ | ⟨d, rest'⟩
          · rw [fixGo_true_bs_nil]
            subst hr
            exact hc
          · subst hr
            rw [fixGo_true_pair]
            rcases List.mem_cons.mp hc with rfl | hc
            · exact List.mem_cons_self _ _
            · rcases List.mem_cons.mp hc with rfl | hc
              · exact List.mem_cons_of_mem _ (List.mem_cons_self _ _)
              · exact List.mem_cons_of_mem _ (List.mem_cons_of_mem _
                  (fixGo_mem_nonws true rest' hc hw))
        · by_cases h3 : x = '\n'
          · subst h3
            rw [fixGo_true_nl]
            rcases List.mem_cons.mp hc with rfl | hc
            · exact absurd hw (by decide)
            · exact List.mem_cons_of_mem _ (List.mem_cons_of_mem _
                (fixGo_mem_nonws true rest hc hw))
          · by_cases h4 : x = '\x0d'
            · subst h4
              rw [fixGo_true_cr]
              rcases List.mem_cons.mp hc with rfl | hc
              · exact absurd hw (by decide)
              · exact List.mem_cons_of_mem _ (List.mem_cons_of_mem _
                  (fixGo_mem_nonws true rest hc hw))
            · by_cases h5 : x = '\t'
              · subst h5
                rw [fixGo_true_tab]
                rcases List.mem_cons.mp hc with rfl | hc
                · exact absurd hw (by decide)
                · exact List.mem_cons_of_mem _ (List.mem_cons_of_mem _
                    (fixGo_mem_nonws true rest hc hw))
              · rw [fixGo_true_plain rest h1 h2 h3 h4 h5]
                rcases List.mem_cons.mp hc with rfl | hc
                · exact List.mem_cons_self _ _
                · exact List.mem_cons_of_mem _ (fixGo_mem_nonws true rest hc hw)

/-- The repair pass keeps the first character of a text that does not start
inside a string. -/
theorem fixGo_false_head (c : Char) (rest : List Char) :
    ∃ t2, fixGo false (c :: rest) = c :: t2 := by
  by_cases h : c = '"'
  · subst h
    exact ⟨_, fixGo_false_quote rest⟩
  · exact ⟨_, fixGo_false_step rest h⟩

/-! ## Extraction from prose-wrapped text -/

theorem findIdx_first : ∀ (l : List Char), (∀ c ∈ l, ¬c = '{') → ∀ (t : List Char) (i : Nat),
    List.findIdx? (fun c => c = '{') (l ++ '{' :: t) i = some (i + l.length)
  | [], _, t, i => by simp [List.findIdx?_cons]
  | c :: l, h, t, i => by
    rw [List.cons_append, List.findIdx?_cons,
      if_neg (by simp [h c (List.mem_cons_self c l)]),
      findIdx_first l (fun d hd => h d (List.mem_cons_of_mem c hd)) t (i + 1)]
    congr 1
    simp only [List.length_cons]
    omega

/-- The extraction scan started at the object's opening brace ends exactly at
its closing brace, whatever follows. -/
theorem scanGo_render_top_i (kvs : JsonObj) (i : Nat) (t : List Char) :
    scanGo 0 false false i (render (.obj kvs) ++ t) =
      some (i + (render (.obj kvs)).length) := by
  rw [render_obj]
  simp only [List.cons_append, List.append_assoc, List.singleton_append, List.nil_append]
  rw [scan_top_open, scanGo_renderObj kvs (0 + 1) (i + 1) ('}' :: t) (by omega),
    scan_top_close, if_pos (by omega)]
  congr 1
  simp only [List.length_cons, List.length_append, List.length_singleton, List.length_nil]
  omega

/-- Stage 3 on prose (brace-free) followed by a rendered object followed by
anything: the brace matcher extracts exactly the object. -/
theorem validateStage3_prose (p1s t2 : List Char) (kvs : JsonObj)
    (hp : ∀ c ∈ p1s, ¬c = '{')
    (hg : goodJson (.obj kvs) = true)
    (hvf : truthy (validateFields kvs) = some kvs) :
    validateStage3 (p1s ++ render (.obj kvs) ++ t2) = (some kvs, ⟨render (.obj kvs)⟩) := by
  have hsplit : p1s ++ render (.obj kvs) ++ t2 =
      p1s ++ '{' :: (renderObj kvs ++ ['}'] ++ t2) := by
    rw [render_obj, List.append_assoc, List.cons_append]
  have hfi : List.findIdx? (fun c => c = '{') (p1s ++ render (.obj kvs) ++ t2) 0 =
      some p1s.length := by
    rw [hsplit, findIdx_first p1s hp _ 0]
    simp
  have hdl : List.drop p1s.length (p1s ++ render (.obj kvs) ++ t2) =
      render (.obj kvs) ++ t2 := by
    rw [List.append_assoc, List.drop_left]
  have htk : List.drop p1s.length
      (List.take (p1s.length + (render (.obj kvs)).length) (p1s ++ render (.obj kvs) ++ t2)) =
      render (.obj kvs) := by
    rw [List.append_assoc, List.take_append, List.take_left, List.drop_left]
  unfold validateStage3
  simp only [hfi, hdl, scanGo_render_top_i kvs p1s.length t2, htk, fixGo_render_nil,
    jsonLoads_render _ hg, hvf]

theorem defence_head {js : List Char} {c : Char} {t : List Char} (h : js = c :: t)
    (hc : ¬c = '`') : defence js = js := by
  subst h
  unfold defence
  rw [if_neg (by simp [listStartsWith, hc])]

theorem jsonLoads_not_obj_of_head {cs : List Char} {c : Char} {t : List Char}
    (hcs : cs = c :: t) (hw : jsonWs c = false) (hbr : ¬c = '{') :
    ∀ kvs2 : JsonObj, jsonLoads cs ≠ some (.obj kvs2) := by
  intro kvs2 h
  have hh := jsonLoads_obj_head h
  rw [hcs, dropWhile_cons_not hw, List.head?_cons] at hh
  exact hbr (Option.some.inj hh)

/-- Stage 1 falls through to stage 2 when the direct parse does not produce
a dict. -/
theorem validateStage1_to_2 (js : List Char)
    (hobj : ∀ kvs2 : JsonObj, jsonLoads js ≠ some (.obj kvs2)) :
    validateStage1 js = validateStage2 js := by
  unfold validateStage1
  rcases hjl : jsonLoads js with - | v
  · simp only [hjl]
  · cases v with
    | obj kvs2 => exact absurd hjl (hobj kvs2)
    | str s => simp only [hjl]
    | int n => simp only [hjl]
    | bool b => simp only [hjl]
    | null => simp only [hjl]
    | arr xs => simp only [hjl]

/-- Stage 2 falls through to stage 3 when the repaired text does not parse
to a dict either. -/
theorem validateStage2_to_3 (js : List Char)
    (hobj : ∀ kvs2 : JsonObj, jsonLoads (fixGo false js) ≠ some (.obj kvs2)) :
    validateStage2 js = validateStage3 js := by
  unfold validateStage2
  by_cases hfix : fixGo false js = js
  · rw [if_neg (by simp [hfix])]
  · rw [if_pos hfix]
    rcases hjl : jsonLoads (fixGo false js) with - | v
    · simp only [hjl]
    · cases v with
      | obj kvs2 => exact absurd hjl (hobj kvs2)
      | str s => simp only [hjl]
      | int n => simp only [hjl]
      | bool b => simp only [hjl]
      | null => simp only [hjl]
      | arr xs => simp only [hjl]

/-- `validate_action` on prose followed by one rendered action object
followed by anything: the embedded object is returned, with exactly the
extracted object text as the canonical text. -/
theorem validateAction_prose (p1 p2 : List Char) (kvs : JsonObj)
    (hp1 : ∀ c ∈ p1, ¬c = '{' ∧ ¬c = '`')
    (hg : goodJson (.obj kvs) = true)
    (hvf : truthy (validateFields kvs) = some kvs) :
    validateAction ⟨p1 ++ render (.obj kvs) ++ p2⟩ = (some kvs, ⟨render (.obj kvs)⟩) := by
  unfold validateAction
  show validateStage1 (defence (pyStrip (p1 ++ render (.obj kvs) ++ p2))) = _
  rw [pyStrip_mid p1 p2 (render_obj kvs) (by decide) (render_obj_getLast kvs) (by decide)]
  have hp1s : ∀ c ∈ p1.dropWhile pyWs, ¬c = '{' ∧ ¬c = '`' :=
    fun c hc => hp1 c ((List.dropWhile_sublist pyWs).subset hc)
  rcases hp1sc : p1.dropWhile pyWs with - | ⟨c1, t1⟩
  · -- no prose before the object once stripped
    simp only [List.nil_append]
    have hshape : render (.obj kvs) ++ (p2.reverse.dropWhile pyWs).reverse =
        '{' :: ((renderObj kvs ++ ['}']) ++ (p2.reverse.dropWhile pyWs).reverse) := by
      rw [render_obj, List.cons_append]
    rw [defence_head hshape (by decide)]
    rcases hr2 : p2.reverse.dropWhile pyWs with - | ⟨z, zr⟩
    · -- nothing after the object either: the direct parse succeeds
      simp only [List.reverse_nil, List.append_nil]
      unfold validateStage1
      simp only [jsonLoads_render _ hg, hvf]
    · -- non-whitespace tail: every parse of the whole text fails
      have hzw : pyWs z = false := dropWhile_head_false p2.reverse hr2
      have hzj : jsonWs z = false := pyWs_false_jsonWs hzw
      have hzmem : z ∈ (z :: zr).reverse := by
        rw [List.mem_reverse]; exact List.mem_cons_self _ _
      have hjl1 : jsonLoads (render (.obj kvs) ++ (z :: zr).reverse) = none := by
        rw [jsonLoads_render_rest _ _ hg rfl, if_neg ?hne]
        case hne =>
          intro h0
          have hz := List.dropWhile_eq_nil_iff.mp h0 z hzmem
          rw [hzj] at hz
          cases hz
      have hjl2 : jsonLoads (fixGo false (render (.obj kvs) ++ (z :: zr).reverse)) = none := by
        rw [fixGo_render, jsonLoads_render_rest _ _ hg rfl, if_neg ?hne2]
        case hne2 =>
          intro h0
          have hz := List.dropWhile_eq_nil_iff.mp h0 z
            (fixGo_mem_nonws false (z :: zr).reverse hzmem hzj)
          rw [hzj] at hz
          cases hz
      rw [validateStage1_to_2 _ (fun kvs2 h => by rw [hjl1] at h; cases h),
        validateStage2_to_3 _ (fun kvs2 h => by rw [hjl2] at h; cases h)]
      have h3 := validateStage3_prose [] (z :: zr).reverse kvs (by simp) hg hvf
      simpa using h3
  · -- non-whitespace prose before the object
    have hc1w : pyWs c1 = false := dropWhile_head_false p1 hp1sc
    have hc1j : jsonWs c1 = false := pyWs_false_jsonWs hc1w
    have hc1 : ¬c1 = '{' ∧ ¬c1 = '`' := by
      refine hp1s c1 ?_
      rw [hp1sc]
      exact List.mem_cons_self _ _
    have hshape : (c1 :: t1) ++ render (.obj kvs) ++ (p2.reverse.dropWhile pyWs).reverse =
        c1 :: (t1 ++ render (.obj kvs) ++ (p2.reverse.dropWhile pyWs).reverse) := by
      simp [List.cons_append, List.append_assoc]
    rw [defence_head hshape hc1.2]
    have hjl1 := jsonLoads_not_obj_of_head hshape hc1j hc1.1
    obtain ⟨t2x, hfx⟩ := fixGo_false_head c1 (t1 ++ render (.obj kvs) ++
      (p2.reverse.dropWhile pyWs).reverse)
    have hjl2 : ∀ kvs2 : JsonObj,
        jsonLoads (fixGo false ((c1 :: t1) ++ render (.obj kvs) ++
          (p2.reverse.dropWhile pyWs).reverse)) ≠ some (.obj kvs2) := by
      rw [hshape, hfx]
      exact jsonLoads_not_obj_of_head rfl hc1j hc1.1
    rw [validateStage1_to_2 _ hjl1, validateStage2_to_3 _ hjl2]
    exact validateStage3_prose (c1 :: t1) (p2.reverse.dropWhile pyWs).reverse kvs
      (fun c hc => (by rw [hp1sc] at hp1s; exact (hp1s c hc).1)) hg hvf

/-! ## Claim C1 -/

/-- C1 (code bug in schema.py): the claim says all five recognized action
kinds — query, calculate, search, whatif, answer — are accepted by the
Normalizer when well-formed, but `VALID_ACTIONS` (schema.py line 7) lists
only query, calculate and answer, so `validate_action` rejects the spec's
own well-formed search and whatif examples (returning `None`), even though
agent.py's system prompt instructs the model to emit them and
`execute_action` has dispatch branches for both. -/
theorem c1_wellformed_search_whatif_rejected :
    (validateAction searchActionText).1 = none ∧
    (validateAction whatifActionText).1 = none ∧
    (jsonLoads searchActionText.data).isSome = true ∧
    (jsonLoads whatifActionText.data).isSome = true := by
  exact ⟨rfl, rfl, rfl, rfl⟩

/-! ## Claim C5 -/

/-- C5: the evaluator satisfies the spec's test vector exactly — `2 + 3 * 4`
is 14, both `mean` forms are 20 (list arguments are flattened), `stdev(5)`
fails with the arity `ValueError`, `1/0` fails with the division
`ValueError`, and `import os` fails to parse, reported as the syntax
`ValueError`.  (Numbers are modelled as exact rationals; all the values
here are exactly representable floats, on which CPython agrees.) -/
theorem c5_evaluator_test_vector :
    calculate "2 + 3 * 4" = .ok 14 ∧
    calculate "mean(10,20,30)" = .ok 20 ∧
    calculate "mean([10,20,30])" = .ok 20 ∧
    calculate "stdev(5)" = .error (.valueError "stdev() requires at least two values") ∧
    calculate "1/0" = .error (.valueError "Division by zero") ∧
    calculate "import os" = .error (.valueError "Invalid expression syntax: invalid syntax") := by
  refine ⟨?_, ?_, ?_, ?_, ?_, ?_⟩ <;> with_unfolding_all rfl

/-! ## Claim C6 -/

/-- C6 (code bug in calculator.py/agent.py): the claim (and spec §7) says
every evaluator failure is reported as an `is_error` ToolResult and never
raised past the Dispatcher, but the validated expression `[1, 2] + 3`
makes `_eval_node` apply `operator.add` to a list and an int, raising
`TypeError` — which neither `calculate` (it converts only `SyntaxError`,
`ZeroDivisionError` and `StatisticsError`) nor `execute_action` (it
catches only `ValueError`) handles, so the exception propagates past the
Dispatcher for every collaborator stub.  This also contradicts
`calculate`'s own docstring ("Raises: ValueError: If the expression is
invalid"). -/
theorem c6_typeerror_escapes_dispatcher :
    (validateAction calcListActionText).1 = some calcListAction ∧
    calculate "[1, 2] + 3" =
      .error (.typeError "can only concatenate list (not \"int\") to list") ∧
    ∀ co : Collab,
      executeAction co calcListAction =
        .error (.typeError "can only concatenate list (not \"int\") to list") := by
  refine ⟨rfl, by with_unfolding_all rfl, fun co => by with_unfolding_all rfl⟩

/-! ## Claim C10 -/

/-- C10 counterexample: the claim says a zero-row query produces the
ToolResult text `"no results"`; the code (agent.py line 176) produces
`"Query returned no results."`, a different string (the non-error flag is
as claimed). -/
theorem c10_counterexample :
    executeAction stubCollabEmpty queryActionEx = .ok ("Query returned no results.", false) ∧
    ("Query returned no results." : String) ≠ "no results" := by
  exact ⟨rfl, by decide⟩

/-- C10 as amended: for every query action and every collaborator whose
delegated execution returns zero rows, the Dispatcher returns a non-error
ToolResult whose text is `"Query returned no results."` (an empty result
sequence is success, never an error). -/
theorem c10_empty_query_is_success (co : Collab) (action : JsonObj) (v : Json)
    (hq : action.get "action" = some (.str "query"))
    (hs : action.get "sql" = some v)
    (he : co.queryDb v = .ok []) :
    executeAction co action = .ok ("Query returned no results.", false) := by
  simp [executeAction, hq, hs, he]

/-- Witness for the amended C10 at a concrete query action and stub. -/
theorem c10_empty_query_is_success_witness :
    executeAction stubCollabEmpty queryActionEx = .ok ("Query returned no results.", false) :=
  c10_empty_query_is_success stubCollabEmpty queryActionEx (.str "SELECT * FROM board_games")
    rfl rfl rfl

/-! ## Claim C2 -/

/-- The retry sub-loop makes at most `fuel` model calls. -/
theorem retryLoop_calls_le (llm : List Msg → String → String) (system : String) :
    ∀ (fuel attempt : Nat) (msgs : List Msg),
      (retryLoop llm system fuel attempt msgs).2.2 ≤ fuel := by
  intro fuel
  induction fuel with
  | zero => intro _ _; simp [retryLoop]
  | succ n ih =>
    intro attempt msgs
    unfold retryLoop
    rcases hv : validateAction (llm msgs system) with ⟨o, c⟩
    simp only [hv]
    cases o with
    | some d => simp
    | none =>
      simp only []
      have := ih (attempt + 1)
        (if attempt < MAX_RETRIES - 1 then
          msgs ++ [⟨"assistant", llm msgs system⟩, ⟨"user", invalidFormatMsg⟩] else msgs)
      omega

/-- The retry sub-loop makes at least one model call when it has budget. -/
theorem retryLoop_calls_pos (llm : List Msg → String → String) (system : String) :
    ∀ (fuel attempt : Nat) (msgs : List Msg), 1 ≤ fuel →
      1 ≤ (retryLoop llm system fuel attempt msgs).2.2 := by
  intro fuel
  cases fuel with
  | zero => intro _ _ h; omega
  | succ n =>
    intro attempt msgs _
    unfold retryLoop
    rcases hv : validateAction (llm msgs system) with ⟨o, c⟩
    simp only [hv]
    cases o with
    | some d => simp
    | none => simp only []; omega

/-- The turn loop executes at most `fuel` turns, each with between 1 and
`MAX_RETRIES` model calls. -/
theorem turnLoop_bounds (llm : List Msg → String → String) (system : String) (co : Collab) :
    ∀ (fuel : Nat) (msgs : List Msg),
      (turnLoop llm system co fuel msgs).perTurnCalls.length ≤ fuel ∧
      ∀ c ∈ (turnLoop llm system co fuel msgs).perTurnCalls, 1 ≤ c ∧ c ≤ MAX_RETRIES := by
  intro fuel
  induction fuel with
  | zero => intro msgs; refine ⟨by simp [turnLoop], by simp [turnLoop]⟩
  | succ n ih =>
    intro msgs
    have hle := retryLoop_calls_le llm system MAX_RETRIES 0 msgs
    have hpos := retryLoop_calls_pos llm system MAX_RETRIES 0 msgs (by decide)
    unfold turnLoop
    rcases hr : retryLoop llm system MAX_RETRIES 0 msgs with ⟨o, msgs1, calls⟩
    rw [hr] at hle hpos
    simp only at hle hpos
    cases o with
    | none => exact ⟨by simp, by simpa using ⟨hpos, hle⟩⟩
    | some p =>
      rcases p with ⟨action, cleaned⟩
      simp only []
      cases hga : action.get "action" with
      | none => exact ⟨by simp, by simpa using ⟨hpos, hle⟩⟩
      | some atype =>
        by_cases hat : atype = .str "answer"
        · simp only [hat, if_pos rfl]
          cases hgt : action.get "text" with
          | none => exact ⟨by simp, by simpa using ⟨hpos, hle⟩⟩
          | some v =>
            cases v <;> exact ⟨by simp, by simpa using ⟨hpos, hle⟩⟩
        · simp only [if_neg hat]
          cases hex : executeAction co action with
          | error e => exact ⟨by simp, by simpa using ⟨hpos, hle⟩⟩
          | ok r =>
            rcases r with ⟨result, isErr⟩
            simp only []
            refine ⟨?_, ?_⟩
            · have := (ih (msgs1 ++ [⟨"assistant", cleaned⟩, ⟨"user", "Tool result:\n" ++ result⟩])).1
              simp only [List.length_cons]
              omega
            · intro c hc
              simp only [List.mem_cons] at hc
              rcases hc with rfl | hc
              · exact ⟨hpos, hle⟩
              · exact (ih (msgs1 ++ [⟨"assistant", cleaned⟩, ⟨"user", "Tool result:\n" ++ result⟩])).2 c hc

/-! ## Normalizer fast-path lemmas (used for C9) -/

/-- `_validate_fields` returns its argument on success, and only for
non-empty dicts (it requires the `"action"` key). -/
theorem validateFields_some {kvs r : JsonObj} (h : validateFields kvs = some r) :
    r = kvs ∧ kvs.isNil = false := by
  unfold validateFields at h
  rcases hg : kvs.get "action" with _ | v
  · rw [hg] at h; exact absurd h (by simp)
  · rw [hg] at h
    have hnil : kvs.isNil = false := by
      cases kvs with
      | nil => simp [JsonObj.get] at hg
      | cons _ _ _ => rfl
    cases v <;> simp only at h
    case str a =>
      refine ⟨?_, hnil⟩
      split at h
      · split at h
        · split at h
          · split at h
            · exact (Option.some.inj h).symm
            · exact absurd h (by simp)
          · exact absurd h (by simp)
        · split at h
          · split at h
            · exact (Option.some.inj h).symm
            · exact absurd h (by simp)
          · split at h
            · split at h
              · exact (Option.some.inj h).symm
              · exact absurd h (by simp)
            · exact (Option.some.inj h).symm
      · exact absurd h (by simp)
    all_goals exact absurd h (by simp)

/-- Every JSON whitespace character is Python `strip` whitespace. -/
theorem jsonWs_pyWs {c : Char} (h : jsonWs c = true) : pyWs c = true := by
  simp only [jsonWs, Bool.or_eq_true, decide_eq_true_eq] at h
  simp only [pyWs, Bool.or_eq_true, decide_eq_true_eq]
  tauto

/-- A string equal to its own `strip` is equal to its own left-`dropWhile`. -/
theorem pyStrip_self_dropWhile {l : List Char} (h : pyStrip l = l) :
    l.dropWhile pyWs = l := by
  have hsuf : (pyStrip l).length ≤ (pyStripL l).length := by
    simpa [pyStrip] using (List.dropWhile_sublist (l := (pyStripL l).reverse) pyWs).length_le
  have hsuf2 : (pyStripL l).length ≤ l.length :=
    (List.dropWhile_sublist (l := l) pyWs).length_le
  have hlen : (pyStripL l).length = l.length := by
    rw [h] at hsuf; omega
  have : pyStripL l = l :=
    (List.dropWhile_sublist (l := l) pyWs).eq_of_length hlen
  simpa [pyStripL] using this

/-- A string equal to its own `strip` drops no JSON whitespace either. -/
theorem pyStrip_self_dropWhile_json {l : List Char} (h : pyStrip l = l) :
    l.dropWhile jsonWs = l := by
  have hd := pyStrip_self_dropWhile h
  cases l with
  | nil => rfl
  | cons c t =>
    rw [List.dropWhile_cons] at hd ⊢
    split
    · next hj =>
      exfalso
      rw [if_pos (jsonWs_pyWs hj)] at hd
      have := (List.dropWhile_sublist (l := t) pyWs).length_le
      have hlen := congrArg List.length hd
      simp at hlen
      omega
    · rfl

/-! ## Claim C9 -/

/-- C9 counterexample: an input accepted by the direct JSON parse and the
schema validator for which `validate_action` does NOT return the input text
itself as the canonical text — it returns the stripped text (the trailing
newline is gone). -/
theorem c9_counterexample :
    jsonLoads c9Input.data = some (.obj c9Obj) ∧
    validateFields c9Obj = some c9Obj ∧
    validateAction c9Input = (some c9Obj, c9Stripped) ∧
    c9Stripped ≠ c9Input := by
  exact ⟨rfl, rfl, rfl, by decide⟩

/-- C9 as amended: for every input string accepted by the direct JSON parse
(which `validate_action` runs on the stripped text) and validating against
the Action schema, `validate_action` returns that object with the
whitespace-stripped input as the canonical text; when the input carries no
surrounding whitespace, the canonical text is therefore exactly the input
(idempotence of the fast path). -/
theorem c9_fastpath_returns_stripped (s : String) (d : JsonObj)
    (hp : jsonLoads (pyStrip s.data) = some (.obj d))
    (hv : validateFields d = some d) :
    validateAction s = (some d, ⟨pyStrip s.data⟩) := by
  obtain ⟨-, hnil⟩ := validateFields_some hv
  have hhead := jsonLoads_obj_head hp
  have hfence : listStartsWith (pyStrip s.data) ['`', '`', '`'] = false := by
    cases hs : pyStrip s.data with
    | nil => rw [hs] at hhead; exact absurd hhead (by simp)
    | cons c t =>
      rw [hs] at hhead
      by_cases hc : c = '`'
      · subst hc
        rw [dropWhile_cons_not (by decide)] at hhead
        simp only [List.head?_cons, Option.some.injEq] at hhead
        exact absurd hhead (by decide)
      · simp [listStartsWith, hc]
  unfold validateAction
  rw [show defence (pyStrip s.data) = pyStrip s.data by simp [defence, hfence]]
  unfold validateStage1
  rw [hp]
  simp only [hv, truthy, hnil, Bool.false_eq_true, if_false]

/-- Witness for the amended C9 at a concrete input carrying trailing
whitespace: the returned canonical text is the stripped input. -/
theorem c9_fastpath_returns_stripped_witness :
    jsonLoads (pyStrip c9Input.data) = some (.obj c9Obj) ∧
      validateFields c9Obj = some c9Obj ∧
      validateAction c9Input = (some c9Obj, ⟨pyStrip c9Input.data⟩) :=
  ⟨rfl, rfl, c9_fastpath_returns_stripped c9Input c9Obj rfl rfl⟩

/-! ## Claim C4 -/

/-- C4: if the first model response of the run is rejected by the Normalizer
and the second response (after the raw response and the repair prompt are
appended) is a valid answer action, `run_agent` returns exactly the
answer's `text` field from the second attempt of the first turn (two model
calls, one turn) and no action is ever dispatched to a tool. -/
theorem c4_second_attempt_answer
    (llm : List Msg → String → String) (system : String) (co : Collab)
    (q : String) (hist : List Msg) (d : JsonObj) (cl t : String)
    (h0 : (validateAction (llm (hist ++ [⟨"user", q⟩]) system)).1 = none)
    (h1 : validateAction (llm ((hist ++ [⟨"user", q⟩]) ++
            [⟨"assistant", llm (hist ++ [⟨"user", q⟩]) system⟩, ⟨"user", invalidFormatMsg⟩]) system)
          = (some d, cl))
    (ha : d.get "action" = some (.str "answer"))
    (ht : d.get "text" = some (.str t)) :
    runAgent llm system co q hist = ⟨.ok t, [2], []⟩ := by
  have hretry : retryLoop llm system MAX_RETRIES 0 (hist ++ [⟨"user", q⟩]) =
      (some (d, cl), (hist ++ [⟨"user", q⟩]) ++
        [⟨"assistant", llm (hist ++ [⟨"user", q⟩]) system⟩, ⟨"user", invalidFormatMsg⟩], 2) := by
    rw [show MAX_RETRIES = 1 + 1 + 1 from rfl, retryLoop_succ]
    rcases hv0 : validateAction (llm (hist ++ [⟨"user", q⟩]) system) with ⟨o0, c0⟩
    rw [hv0] at h0
    simp only at h0
    subst h0
    simp only [show ((0 : Nat) < MAX_RETRIES - 1) = True by simp [MAX_RETRIES], if_true,
      retryLoop_succ, h1]
    simp only [hv0]
  rw [runAgent, show MAX_TURNS = 9 + 1 from rfl, turnLoop_succ, hretry]
  simp only [ha, ht]
  rfl

/-- Witness for C4 at the concrete alternating stub. -/
theorem c4_second_attempt_answer_witness :
    runAgent c4StubLlm "system" stubCollabEmpty "How many games?" [] =
      ⟨.ok "There are 15 games.", [2], []⟩ :=
  c4_second_attempt_answer c4StubLlm "system" stubCollabEmpty "How many games?" [] c4AnswerObj
    "\x7b\"action\": \"answer\", \"text\": \"There are 15 games.\"\x7d" "There are 15 games."
    rfl rfl rfl rfl

/-- C2: for every model backend, every collaborator set and every starting
conversation, `run_agent` executes at most `MAX_TURNS` turns, makes between
1 and `MAX_RETRIES` model calls in every executed turn (so at most
`MAX_TURNS * MAX_RETRIES` calls in total), and terminates — the embedded
loop is structurally recursive on the strictly decreasing remaining-turn
budget, and the retry sub-loop on the strictly decreasing remaining-retry
budget, with every iteration consuming budget (the lower bound `1 ≤ c`). -/
theorem c2_budgets_respected (llm : List Msg → String → String) (system : String)
    (co : Collab) (q : String) (hist : List Msg) :
    (runAgent llm system co q hist).perTurnCalls.length ≤ MAX_TURNS ∧
    (∀ c ∈ (runAgent llm system co q hist).perTurnCalls, 1 ≤ c ∧ c ≤ MAX_RETRIES) ∧
    ((runAgent llm system co q hist).perTurnCalls.sum ≤ MAX_TURNS * MAX_RETRIES) := by
  obtain ⟨h1, h2⟩ := turnLoop_bounds llm system co MAX_TURNS (hist ++ [⟨"user", q⟩])
  refine ⟨h1, h2, ?_⟩
  calc (runAgent llm system co q hist).perTurnCalls.sum
      ≤ (runAgent llm system co q hist).perTurnCalls.length * MAX_RETRIES := by
        apply List.sum_le_card_nsmul
        intro c hc; exact (h2 c hc).2
    _ ≤ MAX_TURNS * MAX_RETRIES := Nat.mul_le_mul_right _ h1

/-- C8: For every action JSON text whose quoted string values contain literal
newline, carriage-return or tab characters — a raw rendering of a value `v`
whose delimiters are escaped but whose control characters are not — the repair
pass `_fix_json_newlines` produces text that parses successfully as JSON, and
the parse yields exactly `v`: the string values contain the original literal
control characters again (round trip). -/
theorem c8_repair_reparse_round_trip (v : Json)
    (_hctrl : hasCtrl v = true) (hg : goodJson v = true) :
    jsonLoads (fixJsonNewlines ⟨renderRaw v⟩).data = some v := by
  show jsonLoads (fixGo false (renderRaw v)) = some v
  rw [fixGo_renderRaw_nil, jsonLoads_render v hg]

theorem c8_repair_reparse_round_trip_witness :
    hasCtrl (.obj c8RawObj) = true ∧ goodJson (.obj c8RawObj) = true ∧
      jsonLoads (fixJsonNewlines ⟨renderRaw (.obj c8RawObj)⟩).data = some (.obj c8RawObj) :=
  ⟨by decide, by decide,
    c8_repair_reparse_round_trip (.obj c8RawObj) (by decide) (by decide)⟩

/-- C3: If the model backend always returns a query action whose SQL, trimmed
and upper-cased, does not start with SELECT, then `run_agent` exhausts
`MAX_RETRIES` model calls in the one turn it executes, returns the fixed
retry-exhaustion failure string as the result of the whole run (it does not
advance to the next turn index: exactly one turn ran), and no action is ever
dispatched — in particular the query executor is never invoked. -/
theorem c3_bad_query_exhausts_retries
    (llm : List Msg → String → String) (system userQuery : String) (history : List Msg)
    (co : Collab)
    (hstub : ∀ msgs, ∃ (kvs : JsonObj) (sql : String),
      llm msgs system = renderString (.obj kvs) ∧
      goodJson (.obj kvs) = true ∧
      kvs.get "action" = some (.str "query") ∧
      kvs.get "sql" = some (.str sql) ∧
      listStartsWith (asciiUpper (pyStrip sql.data)) "SELECT".data = false) :
    runAgent llm system co userQuery history =
      ⟨.ok "Error: Agent failed to produce valid JSON after multiple attempts.",
        [MAX_RETRIES], []⟩ := by
  have hinv : ∀ msgs, (validateAction (llm msgs system)).1 = none := by
    intro msgs
    obtain ⟨kvs, sql, hllm, hg, ha, hs, hbad⟩ := hstub msgs
    rw [hllm, validateAction_render_obj kvs hg, validateFields_query_bad ha hs hbad]
    rfl
  unfold runAgent
  rw [show MAX_TURNS = 9 + 1 from rfl, turnLoop_succ]
  rcases hrl : retryLoop llm system MAX_RETRIES 0 (history ++ [⟨"user", userQuery⟩])
    with ⟨o, m, n⟩
  have hr := retryLoop_all_invalid llm system hinv MAX_RETRIES 0
    (history ++ [⟨"user", userQuery⟩])
  rw [hrl] at hr
  have ho : o = none := hr.1
  have hn : n = MAX_RETRIES := hr.2
  subst ho
  subst hn
  rw [hrl]

theorem c3_bad_query_exhausts_retries_witness :
    runAgent c3StubLlm "sys" stubCollabEmpty "how many games?" [] =
      ⟨.ok "Error: Agent failed to produce valid JSON after multiple attempts.",
        [MAX_RETRIES], []⟩ :=
  c3_bad_query_exhausts_retries c3StubLlm "sys" "how many games?" [] stubCollabEmpty
    (fun _ => ⟨c3BadQuery, "DROP TABLE games", rfl, by decide, rfl, rfl, by decide⟩)

/-- C7 counterexample: the claim quantifies over every surrounding prose, but
prose containing an opening brace before the object derails the
brace-balanced extraction — the scan starts at the prose's `\x7b`, never sees
its depth return to zero, and `validate_action` returns no action at all for
a text that is prose followed by one complete valid action object. -/
theorem c7_counterexample :
    c7BraceProse.data = "note \x7b ".data ++ render (.obj c7Obj) ++ [] ∧
      truthy (validateFields c7Obj) = some c7Obj ∧
      (validateAction c7BraceProse).1 = none :=
  ⟨by decide, by decide, by decide⟩

/-- C7 (amended): for every text made of prose, then one complete valid
action JSON object, then prose (including further JSON objects after the
first), where the leading prose contains no opening brace and no backtick,
`validate_action` returns the embedded action, and the canonical text it
returns is precisely the single extracted (and repaired) JSON object with
all surrounding prose and any later objects discarded. -/
theorem c7_prose_wrapped_extraction (p1 p2 : List Char) (kvs : JsonObj)
    (hp1 : ∀ c ∈ p1, ¬c = '{' ∧ ¬c = '`')
    (hg : goodJson (.obj kvs) = true)
    (hvf : truthy (validateFields kvs) = some kvs) :
    validateAction ⟨p1 ++ render (.obj kvs) ++ p2⟩ = (some kvs, renderString (.obj kvs)) :=
  validateAction_prose p1 p2 kvs hp1 hg hvf

theorem c7_prose_wrapped_extraction_witness :
    (∀ c ∈ "Sure, here is the action: ".data, ¬c = '{' ∧ ¬c = '`') ∧
      goodJson (.obj c7Obj) = true ∧
      truthy (validateFields c7Obj) = some c7Obj ∧
      validateAction ⟨"Sure, here is the action: ".data ++ render (.obj c7Obj) ++
        "\nDone. \x7b\"action\": \"noop\"\x7d".data⟩ = (some c7Obj, renderString (.obj c7Obj)) :=
  ⟨by decide, by decide, by decide,
    c7_prose_wrapped_extraction _ _ c7Obj (by decide) (by decide) (by decide)⟩

end AgentBot
